import Mathlib

/-!
# Verification of the SimulateEnv interaction core

A shallow embedding of `src/SimulateEnv/interaction_core.py`,
`src/SimulateEnv/user_behavior_simulator.py` and
`src/SimulateEnv/simulation_engine.py`, together with proofs about the
embedded operations.

Modelling conventions, used throughout:

* Python `dict` (insertion ordered) is an association list
  `List (String × α)`; assignment `d[k] = v` replaces the value in place
  when the key is present and appends otherwise.
* `uuid.uuid4().hex` suffixes and `datetime.now()` timestamps are drawn
  from one deterministic monotone counter `freshCounter` threaded through
  the environment: each comment creation stamps the current counter value
  (as its id suffix and as its `createdAt` time) and increments it.  The
  claims under study do not depend on the concrete text of the ids, only
  on their role as dict keys and on the monotonicity of timestamps.
* `random.random() < p` draws of the behaviour simulator are passed in as
  explicit `Bool` parameters and `random.choice(xs)` as an explicit index
  (reduced modulo the length), so that theorems quantify over every
  possible draw.
* Printing and the persistence layer (`DataStorage`) are I/O only and do
  not touch the in-memory environment; they are omitted.
-/

namespace SimulateEnv

/-- `ActionType` enum of `interaction_core.py`. -/
inductive ActionType
  | likePost
  | commentPost
  | likeComment
  | commentComment
deriving DecidableEq, Repr

/-- `Post` dataclass: id, content, author, creation time, like counter and
the list of users who liked the post. -/
structure Post where
  postId : String
  content : String
  authorId : String
  createdAt : Nat
  likes : Nat
  likeUsers : List String
deriving DecidableEq, Repr

/-- `Comment` dataclass.  `content` is `Option String` because the Python
code passes `action.content` (typed `Optional[str]`) straight through. -/
structure Comment where
  commentId : String
  postId : String
  content : Option String
  authorId : String
  parentCommentId : Option String
  createdAt : Nat
  likes : Nat
  likeUsers : List String
deriving DecidableEq, Repr

/-- `UserAction` dataclass. -/
structure UserAction where
  actionId : String
  userId : String
  actionType : ActionType
  targetId : String
  content : Option String
  createdAt : Nat
  roundNumber : Nat
deriving DecidableEq, Repr

/-- First value bound to key `k` in an insertion-ordered dict. -/
def dictGet {α : Type} (d : List (String × α)) (k : String) : Option α :=
  (d.find? (fun p => p.1 = k)).map (fun p => p.2)

/-- Python `k in d`. -/
def dictContains {α : Type} (d : List (String × α)) (k : String) : Bool :=
  d.any (fun p => p.1 = k)

/-- Python `d[k] = v`: replace in place when present, append otherwise. -/
def dictInsert {α : Type} (d : List (String × α)) (k : String) (v : α) :
    List (String × α) :=
  if dictContains d k then d.map (fun p => if p.1 = k then (k, v) else p)
  else d ++ [(k, v)]

/-- `InteractionEnvironment`: one post, the comment dict, the action log,
the round counter and the per-user action counts.  `freshCounter` models
the uuid/clock source (see the module comment). -/
structure InteractionEnvironment where
  post : Post
  comments : List (String × Comment)
  actions : List UserAction
  currentRound : Nat
  userActionCount : List (String × Nat)
  freshCounter : Nat
deriving DecidableEq, Repr

/-- `InteractionEnvironment.__init__`. -/
def initEnv (postContent : String) (postId : String) : InteractionEnvironment :=
  { post := { postId := postId, content := postContent,
              authorId := "original_author", createdAt := 0, likes := 0,
              likeUsers := [] }
    comments := []
    actions := []
    currentRound := 0
    userActionCount := []
    freshCounter := 1 }

/-- `_like_post`: raises (here: `.error`) on a post-id mismatch, otherwise
appends the user to `like_users` and bumps `likes` unless the user already
liked the post, in which case it silently does nothing. -/
def like_post (env : InteractionEnvironment) (userId postId : String) :
    Except String InteractionEnvironment :=
  if postId ≠ env.post.postId then .error "post id mismatch"
  else if env.post.likeUsers.contains userId then .ok env
  else .ok { env with
    post := { env.post with
      likeUsers := env.post.likeUsers ++ [userId]
      likes := env.post.likes + 1 } }

/-- Fresh comment id for a top-level comment, `f"{post_id}_comment_{...}"`
with the counter as the unique suffix. -/
def commentIdFor (postId : String) (n : Nat) : String :=
  postId ++ "_comment_" ++ toString n

/-- Fresh comment id for a reply, `f"{parent_comment_id}_sub_{...}"`. -/
def subCommentIdFor (parentId : String) (n : Nat) : String :=
  parentId ++ "_sub_" ++ toString n

/-- `_comment_post`: raises on a post-id mismatch, otherwise inserts a new
top-level comment.  Note the Python code performs no check on `content`. -/
def comment_post (env : InteractionEnvironment) (userId postId : String)
    (content : Option String) : Except String InteractionEnvironment :=
  if postId ≠ env.post.postId then .error "post id mismatch"
  else
    let c : Comment :=
      { commentId := commentIdFor postId env.freshCounter
        postId := postId
        content := content
        authorId := userId
        parentCommentId := none
        createdAt := env.freshCounter
        likes := 0
        likeUsers := [] }
    .ok { env with
      comments := dictInsert env.comments c.commentId c
      freshCounter := env.freshCounter + 1 }

/-- `_like_comment`: raises when the comment id is absent, otherwise adds
the user to the comment's like list and bumps its counter unless the user
already liked it (silent no-op). -/
def like_comment (env : InteractionEnvironment) (userId commentId : String) :
    Except String InteractionEnvironment :=
  if ¬ dictContains env.comments commentId then .error "comment not found"
  else .ok { env with
    comments := env.comments.map (fun p =>
      if p.1 = commentId then
        (p.1,
          if p.2.likeUsers.contains userId then p.2
          else { p.2 with likeUsers := p.2.likeUsers ++ [userId]
                          likes := p.2.likes + 1 })
      else p) }

/-- `_comment_comment`: raises when the parent comment id is absent,
otherwise inserts a reply.  The Python code never inspects the parent's
own `parent_comment_id`, so replies to replies are accepted. -/
def comment_comment (env : InteractionEnvironment)
    (userId parentCommentId : String) (content : Option String) :
    Except String InteractionEnvironment :=
  match dictGet env.comments parentCommentId with
  | none => .error "parent comment not found"
  | some parent =>
    let c : Comment :=
      { commentId := subCommentIdFor parentCommentId env.freshCounter
        postId := parent.postId
        content := content
        authorId := userId
        parentCommentId := some parentCommentId
        createdAt := env.freshCounter
        likes := 0
        likeUsers := [] }
    .ok { env with
      comments := dictInsert env.comments c.commentId c
      freshCounter := env.freshCounter + 1 }

/-- Dispatch of `add_action` on `action.action_type`. -/
def runActionOp (env : InteractionEnvironment) (a : UserAction) :
    Except String InteractionEnvironment :=
  match a.actionType with
  | .likePost => like_post env a.userId a.targetId
  | .commentPost => comment_post env a.userId a.targetId a.content
  | .likeComment => like_comment env a.userId a.targetId
  | .commentComment => comment_comment env a.userId a.targetId a.content

/-- The action object as recorded in the log: `add_action` overwrites its
`round_number` with the environment's current round just before appending. -/
def recordedAction (env : InteractionEnvironment) (a : UserAction) : UserAction :=
  { a with roundNumber := env.currentRound }

/-- `add_action`: runs the operation for the action's type inside
`try/except`.  On an exception it returns `False` having changed nothing;
otherwise it stamps the action with the current round, appends it to the
log, increments the user's action count and returns `True`. -/
def add_action (env : InteractionEnvironment) (a : UserAction) :
    InteractionEnvironment × Bool :=
  match runActionOp env a with
  | .error _ => (env, false)
  | .ok env' =>
    ({ env' with
        actions := env'.actions ++ [recordedAction env' a]
        userActionCount := dictInsert env'.userActionCount a.userId
          ((dictGet env'.userActionCount a.userId).getD 0 + 1) },
      true)

/-- `start_new_round`. -/
def start_new_round (env : InteractionEnvironment) : InteractionEnvironment :=
  { env with currentRound := env.currentRound + 1 }

/-! ## The snapshot (`get_environment_state`), pure view

`get_environment_state` returns a freshly built dictionary tree; here we
give its content as a pure Lean structure.  A second, heap-level model of
the same function (which additionally tracks object identity, for the
snapshot-independence property) appears further below. -/

/-- The `'sub_comments'` entries of the snapshot. -/
structure SubCommentView where
  commentId : String
  content : Option String
  authorId : String
  likes : Nat
  createdAt : Nat
deriving DecidableEq, Repr

/-- The `'primary_comments'` entries of the snapshot. -/
structure CommentView where
  commentId : String
  content : Option String
  authorId : String
  likes : Nat
  createdAt : Nat
  subComments : List SubCommentView
deriving DecidableEq, Repr

/-- The `'post'` entry of the snapshot. -/
structure PostView where
  postId : String
  content : String
  authorId : String
  likes : Nat
  createdAt : Nat
deriving DecidableEq, Repr

/-- The dictionary returned by `get_environment_state`. -/
structure EnvironmentState where
  post : PostView
  primaryComments : List CommentView
  totalComments : Nat
  totalActions : Nat
  currentRound : Nat
  activeUsers : Nat
deriving DecidableEq, Repr

/-- Stable insertion into a list sorted by `lt`: walk past strictly
smaller elements and stop at the first element not smaller. -/
def stableInsert {α : Type} (lt : α → α → Bool) (x : α) : List α → List α
  | [] => [x]
  | y :: ys => if lt y x then y :: stableInsert lt x ys else x :: y :: ys

/-- Stable sort (models Python's stable `list.sort(key=...)`). -/
def stableSort {α : Type} (lt : α → α → Bool) : List α → List α
  | [] => []
  | x :: xs => stableInsert lt x (stableSort lt xs)

/-- `c.is_sub_comment`. -/
def isSubComment (c : Comment) : Bool :=
  c.parentCommentId.isSome

/-- One `'sub_comments'` dictionary entry built from a comment. -/
def subViewOf (c : Comment) : SubCommentView :=
  { commentId := c.commentId, content := c.content, authorId := c.authorId,
    likes := c.likes, createdAt := c.createdAt }

/-- One `'primary_comments'` dictionary entry: the comment's own fields
plus its replies (dict-iteration order filtered by parent, then sorted by
creation time, exactly as the grouping loop in the source does). -/
def commentViewOf (comments : List Comment) (c : Comment) : CommentView :=
  { commentId := c.commentId, content := c.content, authorId := c.authorId,
    likes := c.likes, createdAt := c.createdAt
    subComments :=
      (stableSort (fun a b => a.createdAt < b.createdAt)
        (comments.filter (fun s => s.parentCommentId = some c.commentId))).map
        subViewOf }

/-- `get_environment_state`, as a pure function of the environment. -/
def get_environment_state (env : InteractionEnvironment) : EnvironmentState :=
  let values := env.comments.map (fun p => p.2)
  let primary := stableSort (fun a b => a.createdAt < b.createdAt)
    (values.filter (fun c => ¬ isSubComment c))
  { post := { postId := env.post.postId, content := env.post.content,
              authorId := env.post.authorId, likes := env.post.likes,
              createdAt := env.post.createdAt }
    primaryComments := primary.map (commentViewOf values)
    totalComments := env.comments.length
    totalActions := env.actions.length
    currentRound := env.currentRound
    activeUsers := env.userActionCount.length }

/-! ## The fallback action generator -/

/-- The canned contents of `fallback_comments` in
`generate_fallback_action` (the file stores them in Chinese; the texts are
opaque to every property, only their non-emptiness matters). -/
def fallbackComments : List String :=
  ["很有意思的内容", "学到了", "赞同", "有道理", "支持"]

/-- `random.choice(xs)`: an arbitrary element, selected here by an
explicit index reduced modulo the length; `none` exactly when the list is
empty (Python raises there). -/
def listChoice {α : Type} (xs : List α) (idx : Nat) : Option α :=
  xs.get? (idx % xs.length)

/-- `generate_fallback_action`.  The two `random.random()` threshold
tests are the `Bool` parameters `rComment` (commenting vs. liking) and
`rSub` (acting on an existing comment vs. on the post); `rPick` selects
the element for the `random.choice` call on the taken branch.  Every
execution of the Python function corresponds to some valuation of these
parameters.  Action `created_at` (a `datetime.now()` default) is
abstracted to `0` and the uuid'd `action_id` to `""`; neither is read
anywhere. -/
def generate_fallback_action (userId : String) (st : EnvironmentState)
    (roundNumber : Nat) (rComment rSub : Bool) (rPick : Nat) :
    Option UserAction :=
  let post := st.post
  let comments := st.primaryComments
  if rComment then
    if comments.length ≠ 0 ∧ rSub then
      (listChoice comments rPick).map (fun c =>
        { actionId := "", userId := userId,
          actionType := .commentComment, targetId := c.commentId,
          content := some "同意你的观点！", createdAt := 0,
          roundNumber := roundNumber })
    else
      (listChoice fallbackComments rPick).map (fun text =>
        { actionId := "", userId := userId,
          actionType := .commentPost, targetId := post.postId,
          content := some text, createdAt := 0,
          roundNumber := roundNumber })
  else
    if comments.length ≠ 0 ∧ rSub then
      (listChoice comments rPick).map (fun c =>
        { actionId := "", userId := userId,
          actionType := .likeComment, targetId := c.commentId,
          content := none, createdAt := 0,
          roundNumber := roundNumber })
    else
      some { actionId := "", userId := userId,
             actionType := .likePost, targetId := post.postId,
             content := none, createdAt := 0,
             roundNumber := roundNumber }

/-! ## The round orchestrator (`simulate_round`)

`simulate_multiple_users` launches one `simulate_user_behavior` task per
profile and collects the results with `asyncio.gather`.  Each task ends in
one of three ways, which we take as an input per actor: it produced a
`UserAction`; it returned `None` (the actor abstained, or the oracle call
timed out, failed, or returned an unusable response — every failure path
of `simulate_user_behavior` returns `None`); or the task itself raised, so
`gather(..., return_exceptions=True)` hands back an exception object. -/

/-- Outcome of one actor's `simulate_user_behavior` task. -/
inductive SimOutcome
  | action (a : UserAction)
  | noAction
  | exn
deriving DecidableEq, Repr

/-- The filtering loop after `gather`: keep exactly the results that are
`UserAction` instances, in list (= submission) order. -/
def simulate_multiple_users (outcomes : List SimOutcome) : List UserAction :=
  outcomes.filterMap (fun o =>
    match o with
    | .action a => some a
    | .noAction => none
    | .exn => none)

/-- The apply loop of `simulate_round`: feed each action to `add_action`
in order; a successfully applied action object (whose `round_number` the
environment just overwrote in place) is collected into
`successful_actions`. -/
def applyActions (env : InteractionEnvironment) :
    List UserAction → InteractionEnvironment × List UserAction
  | [] => (env, [])
  | a :: rest =>
    let r := add_action env a
    let rec' := applyActions r.1 rest
    (rec'.1, if r.2 then recordedAction env a :: rec'.2 else rec'.2)

/-- `simulate_round` with the per-actor task outcomes given as input:
start a new round, snapshot the environment (the snapshot only feeds the
oracle calls, whose outcomes are the input), apply the surviving actions
sequentially and return the successfully applied ones.  Persistence and
printing are I/O and are omitted. -/
def simulate_round (env : InteractionEnvironment)
    (outcomes : List SimOutcome) : InteractionEnvironment × List UserAction :=
  let env1 := start_new_round env
  let actions := simulate_multiple_users outcomes
  applyActions env1 actions

/-! ### Completion-order jitter

`asyncio.gather` stores each task's result in the slot of its submission
index, whatever order the tasks complete in.  We model a completion
schedule as the list of submission indices in completion order and make
the slot mechanism explicit: `gatherResults` replays the completions and
then reads the slots back in submission order. -/

/-- The completion events: each index that completes delivers its own
outcome, tagged with its submission index. -/
def runCompletions (outcomes : List SimOutcome) (order : List Nat) :
    List (Nat × SimOutcome) :=
  order.filterMap (fun i => (outcomes.get? i).map (fun o => (i, o)))

/-- Read the result slots back in submission order; a slot is `none` only
if its task never completed. -/
def gatherResults (outcomes : List SimOutcome) (order : List Nat) :
    List (Option SimOutcome) :=
  (List.range outcomes.length).map (fun i =>
    (runCompletions outcomes order).lookup i)

/-- `simulate_round` run under an explicit completion schedule. -/
def simulate_round_sched (env : InteractionEnvironment)
    (outcomes : List SimOutcome) (order : List Nat) :
    InteractionEnvironment × List UserAction :=
  let env1 := start_new_round env
  let actions := simulate_multiple_users
    ((gatherResults outcomes order).filterMap id)
  applyActions env1 actions

/-! ## Well-formedness of the comment dict

Properties every environment built through the constructor and
`add_action` enjoys: dict keys are pairwise distinct, and each comment is
stored under its own `comment_id` (the source always executes
`self.comments[comment.comment_id] = comment`). -/

/-- Keys of an insertion-ordered dict are pairwise distinct. -/
def dictNodupKeys {α : Type} (d : List (String × α)) : Prop :=
  (d.map (fun p => p.1)).Nodup

/-- Every comment sits under its own id, and keys are distinct. -/
def EnvWF (env : InteractionEnvironment) : Prop :=
  dictNodupKeys env.comments ∧ ∀ p ∈ env.comments, p.1 = p.2.commentId

instance {α : Type} (d : List (String × α)) : Decidable (dictNodupKeys d) := by
  unfold dictNodupKeys; infer_instance

instance (env : InteractionEnvironment) : Decidable (EnvWF env) := by
  unfold EnvWF dictNodupKeys; infer_instance

/-- Environments reachable from a fresh `InteractionEnvironment` by any
sequence of `add_action` calls (with arbitrary `start_new_round`s in
between, as the engine performs one per round). -/
inductive Reachable : InteractionEnvironment → Prop
  | init (content postId : String) : Reachable (initEnv content postId)
  | step (env : InteractionEnvironment) (a : UserAction) :
      Reachable env → Reachable (add_action env a).1
  | round (env : InteractionEnvironment) :
      Reachable env → Reachable (start_new_round env)

/-! ## Concrete example data

A replay of the scenario in the source's own `__main__` test block: a
fresh environment, one like, one comment, one reply, then a reply to the
reply.  Used by the witness and counterexample theorems below. -/

def exEnv0 : InteractionEnvironment := initEnv "hello world" "p"

def exLike : UserAction :=
  { actionId := "", userId := "u1", actionType := .likePost, targetId := "p",
    content := none, createdAt := 0, roundNumber := 0 }

def exEnv1 : InteractionEnvironment := (add_action exEnv0 exLike).1

def exComment : UserAction :=
  { actionId := "", userId := "u2", actionType := .commentPost,
    targetId := "p", content := some "hi", createdAt := 0, roundNumber := 0 }

def exEnv2 : InteractionEnvironment := (add_action exEnv1 exComment).1

def exReply : UserAction :=
  { actionId := "", userId := "u3", actionType := .commentComment,
    targetId := "p_comment_1", content := some "re", createdAt := 0,
    roundNumber := 0 }

def exEnv3 : InteractionEnvironment := (add_action exEnv2 exReply).1

/-- The reply stored in `exEnv3`: a comment whose `parentCommentId` is the
top-level comment `p_comment_1`. -/
def exReplyComment : Comment :=
  { commentId := "p_comment_1_sub_2", postId := "p", content := some "re",
    authorId := "u3", parentCommentId := some "p_comment_1", createdAt := 2,
    likes := 0, likeUsers := [] }

def exReplyToReply : UserAction :=
  { actionId := "", userId := "u4", actionType := .commentComment,
    targetId := "p_comment_1_sub_2", content := some "re2", createdAt := 0,
    roundNumber := 0 }

def exEnv4 : InteractionEnvironment := (add_action exEnv3 exReplyToReply).1

def exBadLike : UserAction :=
  { actionId := "", userId := "u9", actionType := .likePost,
    targetId := "nope", content := none, createdAt := 0, roundNumber := 0 }

def exEmptyComment : UserAction :=
  { actionId := "", userId := "u5", actionType := .commentPost,
    targetId := "p", content := none, createdAt := 0, roundNumber := 0 }

/-- The like-consistency invariant of the data model: the post's like
counter equals the number of its likers, every comment's like counter
equals the number of its likers, and no user appears twice in any like
list. -/
def LikesInv (env : InteractionEnvironment) : Prop :=
  env.post.likes = env.post.likeUsers.length ∧ env.post.likeUsers.Nodup ∧
  ∀ p ∈ env.comments,
    p.2.likes = p.2.likeUsers.length ∧ p.2.likeUsers.Nodup

instance (env : InteractionEnvironment) : Decidable (LikesInv env) := by
  unfold LikesInv; infer_instance

/-! ## Heap model of `get_environment_state`

The pure `get_environment_state` above captures the snapshot's *content*.
Claim C7 is about object *identity*: the returned snapshot must be an
independently owned deep copy, so that mutating it can never change
engine state or a later snapshot.  To state that, we model the Python
object graph: mutable objects (lists and dicts) live in a heap addressed
by allocation order; values are immutable leaves (`str`, `int`, `None`)
or references to heap cells.  The environment's own containers (the post
object with its `like_users` list, the comment dict and comment objects,
the action list, the count dict) are existing cells; every `[...]` or
`{...}` literal that `get_environment_state` evaluates allocates a fresh
cell at the end of the heap.  The function reads existing cells and never
writes one. -/

/-- A Python value: an immutable leaf or a reference to a heap object. -/
inductive PyVal
  | vstr (s : String)
  | vint (n : Int)
  | vnone
  | vref (a : Nat)
deriving DecidableEq, Repr

/-- A mutable Python object: a list or a dict. -/
inductive PyObj
  | olist (items : List PyVal)
  | odict (fields : List (String × PyVal))
deriving DecidableEq, Repr

/-- The heap: cell `a` is the object at address `a`. -/
abbrev Heap := List PyObj

def heapGet (h : Heap) (a : Nat) : Option PyObj := h.get? a

/-- In-place mutation of one heap cell.  Any Python mutation of a list
or dict object (index/key assignment, `append`, …) is such an update on
the object graph. -/
def setCell (h : Heap) (a : Nat) (o : PyObj) : Heap := h.set a o

def asStr : Option PyVal → Option String
  | some (.vstr s) => some s
  | _ => none

def asInt : Option PyVal → Option Int
  | some (.vint n) => some n
  | _ => none

def asRef : Option PyVal → Option Nat
  | some (.vref a) => some a
  | _ => none

/-- `True` for an immutable leaf value (copied verbatim into the
snapshot), `False` for a reference. -/
def isLeaf : PyVal → Bool
  | .vref _ => false
  | _ => true

def asLeaf : Option PyVal → Option PyVal
  | some (.vstr s) => some (.vstr s)
  | some (.vint n) => some (.vint n)
  | some .vnone => some .vnone
  | _ => none

/-- The fields of the `Post` object that `get_environment_state` reads
(`post_id`, `content`, `author_id`, `likes`, `created_at`; the
`like_users` list is not read). -/
structure PostRead where
  postId : String
  content : String
  authorId : String
  likes : Int
  createdAt : Int
deriving DecidableEq, Repr

/-- The fields of a `Comment` object that `get_environment_state` reads.
`content` is copied verbatim (a `str` or `None` leaf). -/
structure CommentRead where
  commentId : String
  content : PyVal
  authorId : String
  likes : Int
  createdAt : Int
  parent : Option String
deriving DecidableEq, Repr

/-- Everything `get_environment_state` reads from the environment object
graph. -/
structure EnvRead where
  post : PostRead
  comments : List CommentRead
  totalActions : Nat
  currentRound : Int
  activeUsers : Nat
deriving DecidableEq, Repr

def asOptStr : Option PyVal → Option (Option String)
  | some (.vstr s) => some (some s)
  | some .vnone => some none
  | _ => none

/-- Read the post object at address `a`. -/
def readPost (h : Heap) (a : Nat) : Option PostRead :=
  match heapGet h a with
  | some (.odict fs) =>
    match asStr (dictGet fs "post_id"), asStr (dictGet fs "content"),
        asStr (dictGet fs "author_id"), asInt (dictGet fs "likes"),
        asInt (dictGet fs "created_at") with
    | some pid, some ct, some au, some lk, some cr =>
      some ⟨pid, ct, au, lk, cr⟩
    | _, _, _, _, _ => none
  | _ => none

/-- Read one comment object through its reference. -/
def readCommentVal (h : Heap) (v : PyVal) : Option CommentRead :=
  match v with
  | .vref a =>
    match heapGet h a with
    | some (.odict fs) =>
      match asStr (dictGet fs "comment_id"), asLeaf (dictGet fs "content"),
          asStr (dictGet fs "author_id"), asInt (dictGet fs "likes"),
          asInt (dictGet fs "created_at"),
          asOptStr (dictGet fs "parent_comment_id") with
      | some cid, some ct, some au, some lk, some cr, some pa =>
        some ⟨cid, ct, au, lk, cr, pa⟩
      | _, _, _, _, _, _ => none
    | _ => none
  | _ => none

/-- Read `self.comments.values()` in dict order. -/
def readComments (h : Heap) : List PyVal → Option (List CommentRead)
  | [] => some []
  | v :: vs =>
    match readCommentVal h v, readComments h vs with
    | some c, some cs => some (c :: cs)
    | _, _ => none

/-- The field dict of a dict object at address `a`. -/
def dictFieldsAt (h : Heap) (a : Nat) : Option (List (String × PyVal)) :=
  (heapGet h a).bind fun o =>
    match o with
    | .odict fs => some fs
    | _ => none

/-- The items of a list object at address `a`. -/
def listItemsAt (h : Heap) (a : Nat) : Option (List PyVal) :=
  (heapGet h a).bind fun o =>
    match o with
    | .olist items => some items
    | _ => none

/-- Read the whole environment object graph from the environment object
at address `a`: the post object, the comment objects, and the lengths of
the action list and of the per-user count dict. -/
def readEnvData (h : Heap) (a : Nat) : Option EnvRead :=
  (dictFieldsAt h a).bind fun fs =>
  (asRef (dictGet fs "post")).bind fun pa =>
  (asRef (dictGet fs "comments")).bind fun ca =>
  (asRef (dictGet fs "actions")).bind fun aa =>
  (asInt (dictGet fs "current_round")).bind fun round =>
  (asRef (dictGet fs "user_action_count")).bind fun ua =>
  (readPost h pa).bind fun post =>
  (dictFieldsAt h ca).bind fun cfs =>
  (readComments h (cfs.map (fun p => p.2))).bind fun cs =>
  (listItemsAt h aa).bind fun acts =>
  (dictFieldsAt h ua).bind fun counts =>
  some ⟨post, cs, acts.length, round, counts.length⟩

/-- The top-level comments of the read data, sorted by creation time
(matching the pure model). -/
def primariesOf (d : EnvRead) : List CommentRead :=
  stableSort (fun a b => a.createdAt < b.createdAt)
    (d.comments.filter (fun c => c.parent = none))

/-- The replies grouped under parent `pid`, sorted by creation time. -/
def subsOf (d : EnvRead) (pid : String) : List CommentRead :=
  stableSort (fun a b => a.createdAt < b.createdAt)
    (d.comments.filter (fun c => c.parent = some pid))

/-- The freshly allocated dict for one entry of a `sub_comments` list. -/
def subCell (s : CommentRead) : PyObj :=
  .odict [("comment_id", .vstr s.commentId), ("content", s.content),
          ("author_id", .vstr s.authorId), ("likes", .vint s.likes),
          ("created_at", .vstr (toString s.createdAt))]

/-- The freshly allocated dict for one entry of `primary_comments`; its
`sub_comments` field references the freshly allocated reply list at
`subAddr`. -/
def commentCell (c : CommentRead) (subAddr : Nat) : PyObj :=
  .odict [("comment_id", .vstr c.commentId), ("content", c.content),
          ("author_id", .vstr c.authorId), ("likes", .vint c.likes),
          ("created_at", .vstr (toString c.createdAt)),
          ("sub_comments", .vref subAddr)]

/-- Allocation block for one primary comment, laid out from `base`: the
reply dicts, then the reply list, then the comment dict itself. -/
def commentBlock (base : Nat) (c : CommentRead) (subs : List CommentRead) :
    List PyObj :=
  subs.map subCell ++
  [.olist ((List.range subs.length).map (fun i => .vref (base + i))),
   commentCell c (base + subs.length)]

/-- Allocation of all primary-comment blocks from `base`; also returns
the addresses of the comment dicts, in order. -/
def commentBlocks (d : EnvRead) (base : Nat) :
    List CommentRead → List PyObj × List Nat
  | [] => ([], [])
  | c :: rest =>
    let subs := subsOf d c.commentId
    let blk := commentBlock base c subs
    let r := commentBlocks d (base + blk.length) rest
    (blk ++ r.1, (base + subs.length + 1) :: r.2)

/-- The freshly allocated `'post'` dict. -/
def postCellOf (p : PostRead) : PyObj :=
  .odict [("post_id", .vstr p.postId), ("content", .vstr p.content),
          ("author_id", .vstr p.authorId), ("likes", .vint p.likes),
          ("created_at", .vstr (toString p.createdAt))]

/-- The freshly allocated top-level snapshot dict. -/
def rootCellOf (d : EnvRead) (primAddr postAddr : Nat) : PyObj :=
  .odict [("post", .vref postAddr), ("primary_comments", .vref primAddr),
          ("total_comments", .vint (d.comments.length : Int)),
          ("total_actions", .vint (d.totalActions : Int)),
          ("current_round", .vint d.currentRound),
          ("active_users", .vint (d.activeUsers : Int))]

/-- All cells `get_environment_state` allocates, laid out from `base`,
and the address of the returned root dict. -/
def buildSnapshot (d : EnvRead) (base : Nat) : List PyObj × Nat :=
  let cb := commentBlocks d base (primariesOf d)
  let primAddr := base + cb.1.length
  let postAddr := primAddr + 1
  (cb.1 ++ [.olist (cb.2.map PyVal.vref), postCellOf d.post,
            rootCellOf d primAddr postAddr],
   postAddr + 1)

/-- `get_environment_state` on the heap: read the environment graph from
the environment object at `a`, allocate the snapshot cells at the end of
the heap, return the root reference and the extended heap. -/
def getEnvironmentStateH (h : Heap) (a : Nat) : Option (PyVal × Heap) :=
  match readEnvData h a with
  | none => none
  | some d =>
    let b := buildSnapshot d h.length
    some (.vref b.2, h ++ b.1)

/-- A resolved object tree: the result of structurally reading a value
and everything reachable from it out of a heap. -/
inductive PyTree
  | tleaf (v : PyVal)
  | tlist (items : List PyTree)
  | tdict (fields : List (String × PyTree))

mutual

/-- Resolve a value to its tree, dereferencing up to `fuel` levels.  Two
values resolve to the same tree exactly when the object graphs hanging
off them are structurally equal (Python `==` on the snapshot). -/
def readTree (fuel : Nat) (h : Heap) (v : PyVal) : Option PyTree :=
  match fuel, v with
  | 0, _ => none
  | fuel + 1, .vref a =>
    (match heapGet h a with
     | some (.olist items) => (readTreeList fuel h items).map PyTree.tlist
     | some (.odict fs) => (readTreeFields fuel h fs).map PyTree.tdict
     | none => none)
  | _ + 1, v => some (.tleaf v)
termination_by (fuel, 0)

/-- Resolve the items of a list object. -/
def readTreeList (fuel : Nat) (h : Heap) (vs : List PyVal) :
    Option (List PyTree) :=
  match vs with
  | [] => some []
  | v :: vs =>
    (match readTree fuel h v, readTreeList fuel h vs with
     | some t, some ts => some (t :: ts)
     | _, _ => none)
termination_by (fuel, vs.length + 1)

/-- Resolve the fields of a dict object. -/
def readTreeFields (fuel : Nat) (h : Heap) (ps : List (String × PyVal)) :
    Option (List (String × PyTree)) :=
  match ps with
  | [] => some []
  | p :: ps =>
    (match readTree fuel h p.2, readTreeFields fuel h ps with
     | some t, some ts => some ((p.1, t) :: ts)
     | _, _ => none)
termination_by (fuel, ps.length + 1)

end

/-- The tree of a `sub_comments` entry. -/
def subTree (s : CommentRead) : PyTree :=
  .tdict [("comment_id", .tleaf (.vstr s.commentId)),
          ("content", .tleaf s.content),
          ("author_id", .tleaf (.vstr s.authorId)),
          ("likes", .tleaf (.vint s.likes)),
          ("created_at", .tleaf (.vstr (toString s.createdAt)))]

/-- The tree of a `primary_comments` entry. -/
def commentTree (c : CommentRead) (subs : List CommentRead) : PyTree :=
  .tdict [("comment_id", .tleaf (.vstr c.commentId)),
          ("content", .tleaf c.content),
          ("author_id", .tleaf (.vstr c.authorId)),
          ("likes", .tleaf (.vint c.likes)),
          ("created_at", .tleaf (.vstr (toString c.createdAt))),
          ("sub_comments", .tlist (subs.map subTree))]

/-- The tree of the `'post'` entry. -/
def postTree (p : PostRead) : PyTree :=
  .tdict [("post_id", .tleaf (.vstr p.postId)),
          ("content", .tleaf (.vstr p.content)),
          ("author_id", .tleaf (.vstr p.authorId)),
          ("likes", .tleaf (.vint p.likes)),
          ("created_at", .tleaf (.vstr (toString p.createdAt)))]

/-- The full snapshot tree: a pure function of the read data alone —
in particular independent of where the snapshot cells were allocated. -/
def snapTreeOf (d : EnvRead) : PyTree :=
  .tdict [("post", postTree d.post),
          ("primary_comments",
            .tlist ((primariesOf d).map
              (fun c => commentTree c (subsOf d c.commentId)))),
          ("total_comments", .tleaf (.vint (d.comments.length : Int))),
          ("total_actions", .tleaf (.vint (d.totalActions : Int))),
          ("current_round", .tleaf (.vint d.currentRound)),
          ("active_users", .tleaf (.vint (d.activeUsers : Int)))]

/-- References held directly by one heap object. -/
def refsOfVal : PyVal → List Nat
  | .vref a => [a]
  | _ => []

def refsOfObj : PyObj → List Nat
  | .olist items => (items.map refsOfVal).join
  | .odict fs => (fs.map (fun p => refsOfVal p.2)).join

/-- A concrete ten-cell heap holding the object graph of an environment
with one post liked by `u1`, one top-level comment by `u2`, and two
logged actions (mirroring `exEnv2`). -/
def exHeap : Heap :=
  [.odict [("post", .vref 1), ("comments", .vref 3), ("actions", .vref 4),
           ("current_round", .vint 0), ("user_action_count", .vref 5)],
   .odict [("post_id", .vstr "p"), ("content", .vstr "hello world"),
           ("author_id", .vstr "original_author"), ("likes", .vint 1),
           ("created_at", .vint 0), ("like_users", .vref 2)],
   .olist [.vstr "u1"],
   .odict [("p_comment_1", .vref 6)],
   .olist [.vref 8, .vref 9],
   .odict [("u1", .vint 1), ("u2", .vint 1)],
   .odict [("comment_id", .vstr "p_comment_1"), ("post_id", .vstr "p"),
           ("content", .vstr "hi"), ("author_id", .vstr "u2"),
           ("parent_comment_id", .vnone), ("likes", .vint 0),
           ("created_at", .vint 1), ("like_users", .vref 7)],
   .olist [],
   .odict [("action_id", .vstr ""), ("user_id", .vstr "u1")],
   .odict [("action_id", .vstr ""), ("user_id", .vstr "u2")]]

/-- The root value and extended heap of the snapshot call on `exHeap`. -/
def exSnapPair : PyVal × Heap :=
  (getEnvironmentStateH exHeap 0).getD (.vnone, [])

/-! ## Dictionary lemmas -/

theorem dictContains_iff {α : Type} (d : List (String × α)) (k : String) :
    dictContains d k = true ↔ ∃ p ∈ d, p.1 = k := by
  unfold dictContains
  simp [List.any_eq_true]

theorem dict_find_none {α : Type} {d : List (String × α)} {k : String}
    (hc : ¬ dictContains d k = true) :
    d.find? (fun p => p.1 = k) = none := by
  rw [List.find?_eq_none]
  intro x hx
  simp only [decide_eq_true_eq]
  intro hxk
  exact hc ((dictContains_iff d k).mpr ⟨x, hx, hxk⟩)

theorem find_map_replace {α : Type} (d : List (String × α)) (k : String)
    (v : α) :
    (d.map (fun p => if p.1 = k then (k, v) else p)).find?
        (fun p => p.1 = k) =
      (d.find? (fun p => p.1 = k)).map (fun _ => (k, v)) := by
  induction d with
  | nil => rfl
  | cons p d ih =>
    by_cases hp : p.1 = k
    · rw [List.map_cons, if_pos hp]
      rw [List.find?_cons_of_pos _ (by simp)]
      rw [List.find?_cons_of_pos _ (by simp [hp])]
      rfl
    · rw [List.map_cons, if_neg hp]
      rw [List.find?_cons_of_neg _ (by simp [hp])]
      rw [List.find?_cons_of_neg _ (by simp [hp])]
      exact ih

theorem find_map_replace_other {α : Type} (d : List (String × α))
    (k k' : String) (v : α) (h : k' ≠ k) :
    (d.map (fun p => if p.1 = k then (k, v) else p)).find?
        (fun p => p.1 = k') =
      d.find? (fun p => p.1 = k') := by
  induction d with
  | nil => rfl
  | cons p d ih =>
    by_cases hp : p.1 = k
    · rw [List.map_cons, if_pos hp]
      rw [List.find?_cons_of_neg _ (by simp; exact fun hh => h hh.symm)]
      rw [List.find?_cons_of_neg _
        (by simp [hp]; exact fun hh => h hh.symm)]
      exact ih
    · rw [List.map_cons, if_neg hp]
      by_cases hpk' : p.1 = k'
      · rw [List.find?_cons_of_pos _ (by simp [hpk'])]
        rw [List.find?_cons_of_pos _ (by simp [hpk'])]
      · rw [List.find?_cons_of_neg _ (by simp [hpk'])]
        rw [List.find?_cons_of_neg _ (by simp [hpk'])]
        exact ih

theorem dictGet_dictInsert_self {α : Type} (d : List (String × α))
    (k : String) (v : α) : dictGet (dictInsert d k v) k = some v := by
  unfold dictInsert
  by_cases hc : dictContains d k
  · rw [if_pos hc]
    unfold dictGet
    rw [find_map_replace]
    rcases (dictContains_iff d k).mp hc with ⟨p, hp, hpk⟩
    have hs : (d.find? (fun p => p.1 = k)).isSome := by
      rw [List.find?_isSome]
      exact ⟨p, hp, by simp [hpk]⟩
    rcases Option.isSome_iff_exists.mp hs with ⟨q, hq⟩
    rw [hq]
    rfl
  · rw [if_neg hc]
    unfold dictGet
    rw [List.find?_append, dict_find_none hc]
    rw [List.find?_cons_of_pos _ (by simp)]
    rfl

theorem dictGet_dictInsert_other {α : Type} (d : List (String × α))
    (k k' : String) (v : α) (h : k' ≠ k) :
    dictGet (dictInsert d k v) k' = dictGet d k' := by
  unfold dictInsert
  by_cases hc : dictContains d k
  · rw [if_pos hc]
    unfold dictGet
    rw [find_map_replace_other d k k' v h]
  · rw [if_neg hc]
    unfold dictGet
    rw [List.find?_append]
    have h1 : List.find? (fun p => p.1 = k') [(k, v)] = none := by
      rw [List.find?_eq_none]
      intro x hx
      simp only [List.mem_singleton] at hx
      subst hx
      simp only [decide_eq_true_eq]
      exact fun hh => h hh.symm
    rw [h1, Option.or_none]

theorem mem_dictInsert_self {α : Type} (d : List (String × α)) (k : String)
    (v : α) : (k, v) ∈ dictInsert d k v := by
  unfold dictInsert
  by_cases hc : dictContains d k
  · rw [if_pos hc]
    rcases (dictContains_iff d k).mp hc with ⟨p, hp, hpk⟩
    exact List.mem_map.mpr ⟨p, hp, if_pos hpk⟩
  · rw [if_neg hc]
    exact List.mem_append.mpr (Or.inr (List.mem_singleton.mpr rfl))

theorem mem_dictInsert_elim {α : Type} {d : List (String × α)} {k : String}
    {v : α} {p : String × α} (h : p ∈ dictInsert d k v) :
    p ∈ d ∨ p = (k, v) := by
  unfold dictInsert at h
  by_cases hc : dictContains d k
  · rw [if_pos hc] at h
    rcases List.mem_map.mp h with ⟨q, hq, hfq⟩
    by_cases hqk : q.1 = k
    · right
      rw [if_pos hqk] at hfq
      exact hfq.symm
    · left
      rw [if_neg hqk] at hfq
      exact hfq ▸ hq
  · rw [if_neg hc] at h
    rcases List.mem_append.mp h with h | h
    · exact Or.inl h
    · exact Or.inr (List.mem_singleton.mp h)

theorem dictGet_unique {α : Type} {d : List (String × α)} {k : String}
    {v : α} (hnd : dictNodupKeys d) (hget : dictGet d k = some v) :
    ∀ p ∈ d, p.1 = k → p.2 = v := by
  induction d with
  | nil => intro p hp; cases hp
  | cons q d ih =>
    intro p hp hpk
    unfold dictNodupKeys at hnd
    rw [List.map_cons, List.nodup_cons] at hnd
    by_cases hqk : q.1 = k
    · have hv : q.2 = v := by
        unfold dictGet at hget
        rw [List.find?_cons_of_pos _ (by simp [hqk])] at hget
        simpa using hget
      rcases List.mem_cons.mp hp with rfl | hp'
      · exact hv
      · exfalso
        apply hnd.1
        rw [hqk, ← hpk]
        exact List.mem_map_of_mem (fun p => p.1) hp'
    · rcases List.mem_cons.mp hp with rfl | hp'
      · exact absurd hpk hqk
      · have hget' : dictGet d k = some v := by
          unfold dictGet at hget ⊢
          rw [List.find?_cons_of_neg _ (by simp [hqk])] at hget
          exact hget
        exact ih hnd.2 hget' p hp' hpk

theorem dictGet_of_mem {α : Type} {d : List (String × α)} {k : String}
    {v : α} (hnd : dictNodupKeys d) (hm : (k, v) ∈ d) :
    dictGet d k = some v := by
  induction d with
  | nil => cases hm
  | cons q d ih =>
    unfold dictNodupKeys at hnd
    rw [List.map_cons, List.nodup_cons] at hnd
    rcases List.mem_cons.mp hm with rfl | hm'
    · unfold dictGet
      rw [List.find?_cons_of_pos _ (by simp)]
      rfl
    · have hqk : ¬ q.1 = k := by
        intro hq
        apply hnd.1
        rw [hq]
        exact List.mem_map_of_mem (fun p => p.1) hm'
      unfold dictGet
      rw [List.find?_cons_of_neg _ (by simp [hqk])]
      exact ih hnd.2 hm'

theorem map_eq_self {α : Type} {l : List α} {f : α → α}
    (h : ∀ a ∈ l, f a = a) : l.map f = l := by
  induction l with
  | nil => rfl
  | cons x xs ih =>
    rw [List.map_cons, h x (List.mem_cons_self x xs),
      ih (fun a ha => h a (List.mem_cons_of_mem x ha))]

theorem dictGet_isSome_of_contains {α : Type} {d : List (String × α)}
    {k : String} (hc : dictContains d k = true) :
    ∃ v, dictGet d k = some v := by
  rcases (dictContains_iff d k).mp hc with ⟨p, hp, hpk⟩
  have hs : (d.find? (fun p => p.1 = k)).isSome :=
    List.find?_isSome.mpr ⟨p, hp, by simp [hpk]⟩
  rcases Option.isSome_iff_exists.mp hs with ⟨q, hq⟩
  exact ⟨q.2, by unfold dictGet; rw [hq]; rfl⟩

theorem contains_of_dictGet_some {α : Type} {d : List (String × α)}
    {k : String} {v : α} (h : dictGet d k = some v) :
    dictContains d k = true := by
  unfold dictGet at h
  cases hf : d.find? (fun p => p.1 = k) with
  | none => rw [hf] at h; cases h
  | some q =>
    have hq := List.find?_some hf
    have hqm : q ∈ d := List.mem_of_find?_eq_some hf
    exact (dictContains_iff d k).mpr ⟨q, hqm, by simpa using hq⟩

theorem mem_stableInsert {α : Type} (lt : α → α → Bool) (x a : α)
    (l : List α) : a ∈ stableInsert lt x l ↔ a = x ∨ a ∈ l := by
  induction l with
  | nil => simp [stableInsert]
  | cons y ys ih =>
    unfold stableInsert
    by_cases hlt : lt y x
    · rw [if_pos hlt]
      rw [List.mem_cons, ih, List.mem_cons]
      tauto
    · rw [if_neg hlt]
      simp [List.mem_cons]

theorem mem_stableSort {α : Type} (lt : α → α → Bool) (l : List α)
    (a : α) : a ∈ stableSort lt l ↔ a ∈ l := by
  induction l with
  | nil => simp [stableSort]
  | cons x xs ih =>
    unfold stableSort
    rw [mem_stableInsert, ih, List.mem_cons]

theorem listChoice_mem {α : Type} (xs : List α) (i : Nat) (hne : xs ≠ []) :
    ∃ v, listChoice xs i = some v ∧ v ∈ xs := by
  unfold listChoice
  have hlen : 0 < xs.length := List.length_pos.mpr hne
  have hlt : i % xs.length < xs.length := Nat.mod_lt _ hlen
  cases hg : xs.get? (i % xs.length) with
  | none =>
    rw [List.get?_eq_none] at hg
    omega
  | some v => exact ⟨v, rfl, List.get?_mem hg⟩

/-! ## Frame lemmas for `add_action` -/

/-- The four operation helpers never touch the action log, the round
counter or the per-user action counts; they also leave the post's id in
place. -/
theorem runActionOp_preserves (env : InteractionEnvironment) (a : UserAction)
    (env' : InteractionEnvironment) (h : runActionOp env a = .ok env') :
    env'.actions = env.actions ∧ env'.currentRound = env.currentRound ∧
    env'.userActionCount = env.userActionCount := by
  cases hat : a.actionType
  case likePost =>
    simp only [runActionOp, hat] at h
    unfold like_post at h
    split at h
    · simp at h
    · split at h <;> (injection h with h; subst h; simp)
  case commentPost =>
    simp only [runActionOp, hat] at h
    unfold comment_post at h
    split at h
    · simp at h
    · injection h with h; subst h; simp
  case likeComment =>
    simp only [runActionOp, hat] at h
    unfold like_comment at h
    split at h
    · simp at h
    · injection h with h; subst h; simp
  case commentComment =>
    simp only [runActionOp, hat] at h
    unfold comment_comment at h
    split at h
    · simp at h
    · injection h with h; subst h; simp

/-- C5: every rejected action leaves the environment exactly as it was
(no comment inserted, no like state touched, no log append, no count
change — the whole state is equal). -/
theorem add_action_rejection_frame (env : InteractionEnvironment)
    (a : UserAction) (h : (add_action env a).2 = false) :
    (add_action env a).1 = env := by
  unfold add_action at h ⊢
  cases hop : runActionOp env a with
  | error e => rfl
  | ok env' =>
    rw [hop] at h
    exact absurd h (by simp)

/-- C5 witness: a like with a mismatched post id is rejected and the
environment is unchanged. -/
theorem rejection_frame_witness :
    (add_action exEnv1 exBadLike).2 = false ∧
    (add_action exEnv1 exBadLike).1 = exEnv1 :=
  ⟨by decide, add_action_rejection_frame exEnv1 exBadLike (by decide)⟩

/-- C10: every successful `add_action` appends exactly one entry to the
action log — the submitted action restamped with the environment's
current round — and bumps the acting user's per-actor count by exactly
one. -/
theorem add_action_success_appends_once (env : InteractionEnvironment)
    (a : UserAction) (h : (add_action env a).2 = true) :
    (add_action env a).1.actions = env.actions ++ [recordedAction env a] ∧
    dictGet (add_action env a).1.userActionCount a.userId =
      some ((dictGet env.userActionCount a.userId).getD 0 + 1) := by
  unfold add_action at h ⊢
  cases hop : runActionOp env a with
  | error e =>
    rw [hop] at h
    exact absurd h (by simp)
  | ok env' =>
    obtain ⟨hacts, hround, hcount⟩ := runActionOp_preserves env a env' hop
    constructor
    · show env'.actions ++ [recordedAction env' a] =
        env.actions ++ [recordedAction env a]
      rw [hacts]
      unfold recordedAction
      rw [hround]
    · show dictGet (dictInsert env'.userActionCount a.userId
          ((dictGet env'.userActionCount a.userId).getD 0 + 1)) a.userId =
        some ((dictGet env.userActionCount a.userId).getD 0 + 1)
      rw [hcount]
      exact dictGet_dictInsert_self _ _ _

/-- C10 witness: a repeated like by the same user on the same post is
reported successful, changes no like state, and still appends one log
entry and bumps the user's count. -/
theorem success_append_witness :
    (add_action exEnv1 exLike).2 = true ∧
    (add_action exEnv1 exLike).1.post.likes = 1 ∧
    ((add_action exEnv1 exLike).1.actions =
        exEnv1.actions ++ [recordedAction exEnv1 exLike] ∧
      dictGet (add_action exEnv1 exLike).1.userActionCount "u1" =
        some ((dictGet exEnv1.userActionCount "u1").getD 0 + 1)) :=
  ⟨by decide, by decide,
    add_action_success_appends_once exEnv1 exLike (by decide)⟩

/-- C1 counterexample: `u1` has already liked the post, yet a second
`LikePost` by `u1` is *not* rejected — `add_action` reports success
(returns `True`); only the like count stays unchanged. -/
theorem duplicate_like_counterexample :
    exEnv1.post.likeUsers = ["u1"] ∧
    (add_action exEnv1 exLike).2 = true ∧
    (add_action exEnv1 exLike).1.post.likes = exEnv1.post.likes := by
  decide

/-- C1 (amended): a second `LikePost`/`LikeComment` by the same actor on
the same target is *accepted* (`add_action` returns `True`) but is a
no-op on like state: the post and the whole comment dict are unchanged,
so no like count changes. -/
theorem duplicate_like_silently_accepted (env : InteractionEnvironment)
    (a : UserAction) (hnd : dictNodupKeys env.comments)
    (h : (a.actionType = .likePost ∧ a.targetId = env.post.postId ∧
            env.post.likeUsers.contains a.userId = true) ∨
         (a.actionType = .likeComment ∧
            ∃ c, dictGet env.comments a.targetId = some c ∧
              c.likeUsers.contains a.userId = true)) :
    (add_action env a).2 = true ∧
    (add_action env a).1.post = env.post ∧
    (add_action env a).1.comments = env.comments := by
  rcases h with ⟨hat, htid, hliked⟩ | ⟨hat, c, hget, hliked⟩
  · have hok : runActionOp env a = Except.ok env := by
      simp only [runActionOp, hat]
      unfold like_post
      rw [if_neg (by simp [htid]), if_pos hliked]
    simp [add_action, hok]
  · have hcont : dictContains env.comments a.targetId = true :=
      contains_of_dictGet_some hget
    have hmapL : env.comments.map (fun p =>
        if p.1 = a.targetId then
          (p.1,
            if p.2.likeUsers.contains a.userId then p.2
            else { p.2 with likeUsers := p.2.likeUsers ++ [a.userId]
                            likes := p.2.likes + 1 })
        else p) = env.comments := by
      have hcg : ∀ p ∈ env.comments,
          (if p.1 = a.targetId then
            ((p.1,
              if p.2.likeUsers.contains a.userId then p.2
              else { p.2 with likeUsers := p.2.likeUsers ++ [a.userId]
                              likes := p.2.likes + 1 }) : String × Comment)
          else p) = p := by
        intro p hp
        by_cases hpk : p.1 = a.targetId
        · have hpv : p.2 = c := dictGet_unique hnd hget p hp hpk
          have hcnt : p.2.likeUsers.contains a.userId = true := by
            rw [hpv]; exact hliked
          rw [if_pos hpk, if_pos hcnt]
        · rw [if_neg hpk]
      exact map_eq_self hcg
    have hok : runActionOp env a = Except.ok env := by
      simp only [runActionOp, hat]
      unfold like_comment
      rw [if_neg (by simp [hcont]), hmapL]
    simp [add_action, hok]

/-- C1 witness: the post-like instance of the amended statement, on the
concrete environment where `u1` already liked the post. -/
theorem duplicate_like_witness :
    dictNodupKeys exEnv1.comments ∧
    exEnv1.post.likeUsers.contains "u1" = true ∧
    ((add_action exEnv1 exLike).2 = true ∧
      (add_action exEnv1 exLike).1.post = exEnv1.post ∧
      (add_action exEnv1 exLike).1.comments = exEnv1.comments) :=
  ⟨by decide, by decide,
    duplicate_like_silently_accepted exEnv1 exLike (by decide)
      (Or.inl ⟨rfl, rfl, by decide⟩)⟩

/-- C2 counterexample: in the reachable environment `exEnv3` the comment
`p_comment_1_sub_2` itself has a parent, yet a `COMMENT_COMMENT`
targeting it is *not* rejected: it succeeds and stores a third-level
comment whose parent's own `parent_comment_id` is non-null. -/
theorem reply_depth_counterexample :
    (dictGet exEnv3.comments "p_comment_1_sub_2").map
        Comment.parentCommentId = some (some "p_comment_1") ∧
    (add_action exEnv3 exReplyToReply).2 = true ∧
    exEnv4.comments.length = 3 ∧
    (dictGet exEnv4.comments "p_comment_1_sub_2_sub_3").map
        Comment.parentCommentId = some (some "p_comment_1_sub_2") := by
  decide

/-- C2 (amended): a `COMMENT_COMMENT` whose target comment exists is
always accepted and inserts a new comment whose parent is the target —
whether or not the target itself already has a parent.  Depth is never
checked, so stored comments may nest arbitrarily; only a nonexistent
target is rejected. -/
theorem reply_to_reply_accepted (env : InteractionEnvironment)
    (a : UserAction) (c : Comment) (hat : a.actionType = .commentComment)
    (hget : dictGet env.comments a.targetId = some c) :
    (add_action env a).2 = true ∧
    dictGet (add_action env a).1.comments
        (subCommentIdFor a.targetId env.freshCounter) =
      some { commentId := subCommentIdFor a.targetId env.freshCounter,
             postId := c.postId, content := a.content, authorId := a.userId,
             parentCommentId := some a.targetId,
             createdAt := env.freshCounter, likes := 0, likeUsers := [] } := by
  have hok : runActionOp env a = Except.ok { env with
      comments := dictInsert env.comments
        (subCommentIdFor a.targetId env.freshCounter)
        { commentId := subCommentIdFor a.targetId env.freshCounter,
          postId := c.postId, content := a.content, authorId := a.userId,
          parentCommentId := some a.targetId,
          createdAt := env.freshCounter, likes := 0, likeUsers := [] }
      freshCounter := env.freshCounter + 1 } := by
    simp only [runActionOp, hat]
    unfold comment_comment
    rw [hget]
  simp only [add_action, hok]
  exact ⟨by simp, dictGet_dictInsert_self _ _ _⟩

/-- C2 witness: the amended statement applied to the concrete reply
`p_comment_1_sub_2`, which itself has a parent. -/
theorem reply_to_reply_witness :
    dictGet exEnv3.comments "p_comment_1_sub_2" = some exReplyComment ∧
    exReplyComment.parentCommentId = some "p_comment_1" ∧
    ((add_action exEnv3 exReplyToReply).2 = true ∧
      dictGet (add_action exEnv3 exReplyToReply).1.comments
          (subCommentIdFor "p_comment_1_sub_2" exEnv3.freshCounter) =
        some { commentId :=
                 subCommentIdFor "p_comment_1_sub_2" exEnv3.freshCounter,
               postId := exReplyComment.postId, content := some "re2",
               authorId := "u4",
               parentCommentId := some "p_comment_1_sub_2",
               createdAt := exEnv3.freshCounter, likes := 0,
               likeUsers := [] }) :=
  ⟨by decide, by decide,
    reply_to_reply_accepted exEnv3 exReplyToReply exReplyComment rfl
      (by decide)⟩

/-- C8 counterexample: a `COMMENT_POST` with absent content is *not*
rejected — it succeeds and inserts a comment whose content is null. -/
theorem empty_content_counterexample :
    exEmptyComment.content = none ∧
    (add_action exEnv1 exEmptyComment).2 = true ∧
    (add_action exEnv1 exEmptyComment).1.comments.length = 1 ∧
    (dictGet (add_action exEnv1 exEmptyComment).1.comments
        "p_comment_1").map Comment.content = some none := by
  decide

/-- C8 (amended): content is never validated.  A `COMMENT_POST` on the
current post, or a `COMMENT_COMMENT` on an existing comment, is accepted
and a comment carrying exactly the submitted content is stored — also
when that content is empty or absent.  The only checks performed are the
post-id match (for post actions) and target existence (for comment
actions). -/
theorem empty_content_accepted (env : InteractionEnvironment)
    (a : UserAction) (hempty : a.content = none ∨ a.content = some "")
    (h : (a.actionType = .commentPost ∧ a.targetId = env.post.postId) ∨
         (a.actionType = .commentComment ∧
            dictContains env.comments a.targetId = true)) :
    (add_action env a).2 = true ∧
    ∃ p ∈ (add_action env a).1.comments,
      p.2.content = a.content ∧ p.2.authorId = a.userId ∧
      p.2.createdAt = env.freshCounter := by
  rcases h with ⟨hat, htid⟩ | ⟨hat, hcont⟩
  · simp only [add_action, runActionOp, hat, comment_post]
    rw [if_neg (by simp [htid])]
    refine ⟨rfl, ⟨_, mem_dictInsert_self _ _ _, rfl, rfl, rfl⟩⟩
  · rcases dictGet_isSome_of_contains hcont with ⟨c, hget⟩
    simp only [add_action, runActionOp, hat, comment_comment, hget]
    refine ⟨by simp, ⟨_, mem_dictInsert_self _ _ _, rfl, rfl, rfl⟩⟩

/-! ## The like-consistency invariant (C6) -/

/-- Each of the four operation helpers preserves `LikesInv`. -/
theorem likesInv_runActionOp (env env' : InteractionEnvironment)
    (a : UserAction) (hinv : LikesInv env)
    (h : runActionOp env a = .ok env') : LikesInv env' := by
  obtain ⟨hp1, hp2, hcs⟩ := hinv
  cases hat : a.actionType
  case likePost =>
    simp only [runActionOp, hat] at h
    unfold like_post at h
    split at h
    · simp at h
    · split at h
      · injection h with h
        subst h
        exact ⟨hp1, hp2, hcs⟩
      · injection h with h
        subst h
        refine ⟨?_, ?_, hcs⟩
        · simp [hp1]
        · rename_i hnc
          have hnm : a.userId ∉ env.post.likeUsers := by simpa using hnc
          simp [List.nodup_append, hp2, hnm]
  case commentPost =>
    simp only [runActionOp, hat] at h
    unfold comment_post at h
    split at h
    · simp at h
    · injection h with h
      subst h
      refine ⟨hp1, hp2, ?_⟩
      intro p hp
      rcases mem_dictInsert_elim hp with hp' | hp'
      · exact hcs p hp'
      · subst hp'
        exact ⟨rfl, List.nodup_nil⟩
  case likeComment =>
    simp only [runActionOp, hat] at h
    unfold like_comment at h
    split at h
    · simp at h
    · injection h with h
      subst h
      refine ⟨hp1, hp2, ?_⟩
      intro p hp
      rcases List.mem_map.mp hp with ⟨q, hq, hfq⟩
      by_cases hqk : q.1 = a.targetId
      · rw [if_pos hqk] at hfq
        by_cases hql : q.2.likeUsers.contains a.userId = true
        · rw [if_pos hql] at hfq
          exact hfq ▸ hcs q hq
        · rw [if_neg hql] at hfq
          obtain ⟨hq1, hq2⟩ := hcs q hq
          subst hfq
          constructor
          · simp [hq1]
          · have hnm : a.userId ∉ q.2.likeUsers := by simpa using hql
            simp [List.nodup_append, hq2, hnm]
      · rw [if_neg hqk] at hfq
        exact hfq ▸ hcs q hq
  case commentComment =>
    simp only [runActionOp, hat] at h
    unfold comment_comment at h
    split at h
    · simp at h
    · injection h with h
      subst h
      refine ⟨hp1, hp2, ?_⟩
      intro p hp
      rcases mem_dictInsert_elim hp with hp' | hp'
      · exact hcs p hp'
      · subst hp'
        exact ⟨rfl, List.nodup_nil⟩

/-- `add_action` (in both its accepting and rejecting outcome) preserves
`LikesInv`. -/
theorem likesInv_add_action (env : InteractionEnvironment) (a : UserAction)
    (hinv : LikesInv env) : LikesInv (add_action env a).1 := by
  unfold add_action
  cases hop : runActionOp env a with
  | error e => exact hinv
  | ok env' =>
    obtain ⟨h1, h2, h3⟩ := likesInv_runActionOp env env' a hinv hop
    exact ⟨h1, h2, h3⟩

/-- C6: in every environment reachable by `add_action` calls from a fresh
environment, `post.likes` equals the size of the post's set of liking
users, every comment's `likes` equals the size of its set of liking
users, and no user appears twice in any like list. -/
theorem reachable_likes_invariant (env : InteractionEnvironment)
    (h : Reachable env) : LikesInv env := by
  induction h with
  | init content postId =>
    exact ⟨rfl, List.nodup_nil, by intro p hp; cases hp⟩
  | step env a _ ih => exact likesInv_add_action env a ih
  | round env _ ih => exact ih

/-- C6 witness: the invariant instantiated at the concretely reached
environment with one like and one comment. -/
theorem likes_invariant_witness : LikesInv exEnv2 :=
  reachable_likes_invariant exEnv2
    (Reachable.step exEnv1 exComment
      (Reachable.step exEnv0 exLike (Reachable.init "hello world" "p")))

/-! ## Round orchestration (C3, C4) -/

/-- C3 counterexample: one actor participates and its oracle call fails
(yields no action).  `simulate_round` returns an *empty* action list —
the failed decision is not replaced, although the fallback generator
would have produced an action from the very same snapshot. -/
theorem oracle_outage_counterexample :
    (simulate_round exEnv0 [SimOutcome.noAction]).2 = [] ∧
    (generate_fallback_action "u1"
        (get_environment_state (start_new_round exEnv0)) 1 true true
        0).isSome = true := by
  exact ⟨rfl, by decide⟩

/-- C3 (amended): if every oracle decision call fails, times out or
abstains (so every task yields no action), `simulate_round` still returns
normally — but with an empty successful-action list and only the round
counter advanced: failed decisions are dropped, not replaced by fallback
actions (`generate_fallback_action` is never consulted). -/
theorem oracle_outage_returns_empty (env : InteractionEnvironment)
    (outcomes : List SimOutcome)
    (h : ∀ o ∈ outcomes, o = SimOutcome.noAction) :
    simulate_round env outcomes = (start_new_round env, []) := by
  unfold simulate_round
  have hnil : simulate_multiple_users outcomes = [] := by
    unfold simulate_multiple_users
    rw [List.filterMap_eq_nil_iff]
    intro o ho
    rw [h o ho]
  rw [hnil]
  rfl

/-- C3 witness: two failing actors on the environment with one comment. -/
theorem oracle_outage_witness :
    (∀ o ∈ [SimOutcome.noAction, SimOutcome.noAction],
        o = SimOutcome.noAction) ∧
    simulate_round exEnv2 [SimOutcome.noAction, SimOutcome.noAction] =
      (start_new_round exEnv2, []) :=
  ⟨by decide,
    oracle_outage_returns_empty exEnv2 _ (by decide)⟩

theorem lookup_runCompletions (outcomes : List SimOutcome)
    (order : List Nat) (i : Nat) (v : SimOutcome) (hmem : i ∈ order)
    (hget : outcomes.get? i = some v) :
    (runCompletions outcomes order).lookup i = some v := by
  induction order with
  | nil => cases hmem
  | cons j rest ih =>
    by_cases hji : j = i
    · subst hji
      unfold runCompletions
      rw [List.filterMap_cons, hget]
      simp [List.lookup]
    · have hmem' : i ∈ rest := by
        rcases List.mem_cons.mp hmem with h1 | h1
        · exact absurd h1.symm hji
        · exact h1
      unfold runCompletions
      rw [List.filterMap_cons]
      cases hgj : outcomes.get? j with
      | none =>
        simpa [runCompletions] using ih hmem'
      | some w =>
        have hne : (i == j) = false := by
          simp
          omega

        simp only [Option.map_some', List.lookup_cons, hne]
        simpa [runCompletions] using ih hmem'

theorem range_map_get {α : Type} (xs : List α) :
    (List.range xs.length).map (fun i => xs.get? i) = xs.map some := by
  induction xs with
  | nil => rfl
  | cons x xs ih =>
    rw [List.length_cons, List.range_succ_eq_map, List.map_cons,
      List.map_cons, List.map_map]
    have htail : (List.range xs.length).map
        ((fun i => (x :: xs).get? i) ∘ Nat.succ) = xs.map some := by
      rw [← ih]
      apply List.map_congr_left
      intro i hi
      rfl
    rw [htail]
    rfl

/-- The slot mechanism of `asyncio.gather`: as long as every submitted
task eventually completes, the results read back in submission order are
exactly the per-task outcomes, whatever the completion order was. -/
theorem gather_complete (outcomes : List SimOutcome) (order : List Nat)
    (hc : ∀ i, i < outcomes.length → i ∈ order) :
    gatherResults outcomes order = outcomes.map some := by
  unfold gatherResults
  have hcg : ∀ i ∈ List.range outcomes.length,
      (runCompletions outcomes order).lookup i = outcomes.get? i := by
    intro i hi
    have hilen := List.mem_range.mp hi
    cases hgi : outcomes.get? i with
    | none =>
      exfalso
      have := List.get?_eq_none.mp hgi
      omega
    | some v => exact lookup_runCompletions outcomes order i v (hc i hilen) hgi
  rw [List.map_congr_left hcg]
  exact range_map_get outcomes

/-- C4: for a fixed ordered sequence of per-actor decision outcomes and a
fixed submission order, two executions of `simulate_round` under *any*
two complete completion schedules produce identical environment states
and identical successful-action lists, and both coincide with the
jitter-free run: results are keyed by submission order, not completion
order. -/
theorem simulate_round_completion_order_independent
    (env : InteractionEnvironment) (outcomes : List SimOutcome)
    (o1 o2 : List Nat) (h1 : ∀ i, i < outcomes.length → i ∈ o1)
    (h2 : ∀ i, i < outcomes.length → i ∈ o2) :
    simulate_round_sched env outcomes o1 =
      simulate_round_sched env outcomes o2 ∧
    simulate_round_sched env outcomes o1 = simulate_round env outcomes := by
  have key : ∀ o, (∀ i, i < outcomes.length → i ∈ o) →
      simulate_round_sched env outcomes o = simulate_round env outcomes := by
    intro o ho
    unfold simulate_round_sched simulate_round
    rw [gather_complete outcomes o ho]
    rw [show (outcomes.map some).filterMap id = outcomes by
      rw [List.filterMap_map]
      simpa using List.filterMap_some outcomes]
  exact ⟨(key o1 h1).trans (key o2 h2).symm, key o1 h1⟩

/-- C4 witness: three actors (one failing) under two different completion
schedules. -/
theorem completion_order_witness :
    (∀ i, i < ([SimOutcome.action exComment, SimOutcome.noAction,
        SimOutcome.action exLike] : List SimOutcome).length →
      i ∈ [2, 0, 1]) ∧
    (simulate_round_sched exEnv0
        [SimOutcome.action exComment, SimOutcome.noAction,
          SimOutcome.action exLike] [2, 0, 1] =
      simulate_round_sched exEnv0
        [SimOutcome.action exComment, SimOutcome.noAction,
          SimOutcome.action exLike] [1, 2, 0] ∧
      simulate_round_sched exEnv0
        [SimOutcome.action exComment, SimOutcome.noAction,
          SimOutcome.action exLike] [2, 0, 1] =
      simulate_round exEnv0
        [SimOutcome.action exComment, SimOutcome.noAction,
          SimOutcome.action exLike]) :=
  ⟨by decide,
    simulate_round_completion_order_independent exEnv0
      [SimOutcome.action exComment, SimOutcome.noAction,
        SimOutcome.action exLike] [2, 0, 1] [1, 2, 0]
      (by decide) (by decide)⟩

/-- C8 witness: the amended statement applied to the concrete
content-less comment action. -/
theorem empty_content_witness :
    exEmptyComment.content = none ∧
    ((add_action exEnv1 exEmptyComment).2 = true ∧
      ∃ p ∈ (add_action exEnv1 exEmptyComment).1.comments,
        p.2.content = exEmptyComment.content ∧
        p.2.authorId = exEmptyComment.userId ∧
        p.2.createdAt = exEnv1.freshCounter) :=
  ⟨by decide,
    empty_content_accepted exEnv1 exEmptyComment (Or.inl rfl)
      (Or.inl ⟨rfl, rfl⟩)⟩

/-! ## The fallback generator (C9) -/

/-- Every entry of the snapshot's `primary_comments` names a comment that
is stored in the environment under that id and has no parent. -/
theorem primary_comment_view (env : InteractionEnvironment)
    (hwf : EnvWF env) (cv : CommentView)
    (hcv : cv ∈ (get_environment_state env).primaryComments) :
    ∃ c, dictGet env.comments cv.commentId = some c ∧
      c.parentCommentId = none := by
  simp only [get_environment_state] at hcv
  rcases List.mem_map.mp hcv with ⟨c, hc, hview⟩
  have hc2 : c ∈ (env.comments.map (fun p => p.2)).filter
      (fun c => ¬ isSubComment c) := (mem_stableSort _ _ c).mp hc
  have hcm : c ∈ env.comments.map (fun p => p.2) :=
    List.mem_of_mem_filter hc2
  have hcp : c.parentCommentId = none := by
    have := List.of_mem_filter hc2
    simp only [decide_eq_true_eq] at this
    unfold isSubComment at this
    cases hpc : c.parentCommentId with
    | none => rfl
    | some x => rw [hpc] at this; simp at this
  rcases List.mem_map.mp hcm with ⟨p, hp, hpc⟩
  have hpk : p = (c.commentId, c) := by
    have h1 : p.1 = p.2.commentId := hwf.2 p hp
    have h2 : p.2 = c := hpc
    rw [h2] at h1
    cases p
    simp_all
  have hget : dictGet env.comments c.commentId = some c :=
    dictGet_of_mem hwf.1 (hpk ▸ hp)
  have hcid : cv.commentId = c.commentId := by
    rw [← hview]
    rfl
  exact ⟨c, hcid ▸ hget, hcp⟩

/-- C9: the fallback generator is total — for every user, environment
snapshot, round and random draw it produces an action — and every action
it produces is structurally valid against the snapshotted environment:
post-targeted actions target the environment's post; comment-targeted
actions (likes and replies) target a comment stored in the environment
whose own parent is null, so a reply never targets a comment that itself
has a parent; and every comment/reply action carries non-empty content. -/
theorem fallback_total_and_valid (uid : String)
    (env : InteractionEnvironment) (roundNumber : Nat)
    (rComment rSub : Bool) (rPick : Nat) (hwf : EnvWF env) :
    ∃ act, generate_fallback_action uid (get_environment_state env)
        roundNumber rComment rSub rPick = some act ∧
      ((act.actionType = .likePost ∨ act.actionType = .commentPost) →
        act.targetId = env.post.postId) ∧
      ((act.actionType = .likeComment ∨
          act.actionType = .commentComment) →
        ∃ c, dictGet env.comments act.targetId = some c ∧
          c.parentCommentId = none) ∧
      ((act.actionType = .commentPost ∨
          act.actionType = .commentComment) →
        ∃ s, act.content = some s ∧ s ≠ "") := by
  by_cases hg : (get_environment_state env).primaryComments.length ≠ 0 ∧
      rSub = true
  · have hne : (get_environment_state env).primaryComments ≠ [] := by
      intro h0
      rw [h0] at hg
      simp at hg
    obtain ⟨cv, hcv, hmem⟩ :=
      listChoice_mem (get_environment_state env).primaryComments rPick hne
    obtain ⟨c, hgetc, hpar⟩ := primary_comment_view env hwf cv hmem
    cases rComment with
    | true =>
      refine ⟨{ actionId := "", userId := uid,
                actionType := .commentComment, targetId := cv.commentId,
                content := some "同意你的观点！", createdAt := 0,
                roundNumber := roundNumber }, ?_, ?_, ?_, ?_⟩
      · simp only [generate_fallback_action, if_pos hg, hcv]
        rfl
      · rintro (h | h) <;> simp at h
      · intro _
        exact ⟨c, hgetc, hpar⟩
      · intro _
        refine ⟨"同意你的观点！", rfl, by decide⟩
    | false =>
      refine ⟨{ actionId := "", userId := uid,
                actionType := .likeComment, targetId := cv.commentId,
                content := none, createdAt := 0,
                roundNumber := roundNumber }, ?_, ?_, ?_, ?_⟩
      · simp only [generate_fallback_action, if_pos hg, hcv]
        rfl
      · rintro (h | h) <;> simp at h
      · intro _
        exact ⟨c, hgetc, hpar⟩
      · rintro (h | h) <;> simp at h
  · cases rComment with
    | true =>
      obtain ⟨s, hs, hsm⟩ := listChoice_mem fallbackComments rPick
        (by decide)
      have hsne : s ≠ "" := by
        have hall : ∀ t ∈ fallbackComments, t ≠ "" := by decide
        exact hall s hsm
      refine ⟨{ actionId := "", userId := uid,
                actionType := .commentPost,
                targetId := (get_environment_state env).post.postId,
                content := some s, createdAt := 0,
                roundNumber := roundNumber }, ?_, ?_, ?_, ?_⟩
      · simp only [generate_fallback_action, if_neg hg, hs]
        rfl
      · intro _
        rfl
      · rintro (h | h) <;> simp at h
      · intro _
        exact ⟨s, rfl, hsne⟩
    | false =>
      refine ⟨{ actionId := "", userId := uid,
                actionType := .likePost,
                targetId := (get_environment_state env).post.postId,
                content := none, createdAt := 0,
                roundNumber := roundNumber }, ?_, ?_, ?_, ?_⟩
      · simp only [generate_fallback_action, if_neg hg]
        rfl
      · intro _
        rfl
      · rintro (h | h) <;> simp at h
      · rintro (h | h) <;> simp at h

/-- C9 witness: the reply branch of the fallback generator on the
environment with one top-level comment. -/
theorem fallback_valid_witness :
    EnvWF exEnv2 ∧
    (∃ act, generate_fallback_action "u7" (get_environment_state exEnv2)
        3 true true 0 = some act ∧
      ((act.actionType = .likePost ∨ act.actionType = .commentPost) →
        act.targetId = exEnv2.post.postId) ∧
      ((act.actionType = .likeComment ∨
          act.actionType = .commentComment) →
        ∃ c, dictGet exEnv2.comments act.targetId = some c ∧
          c.parentCommentId = none) ∧
      ((act.actionType = .commentPost ∨
          act.actionType = .commentComment) →
        ∃ s, act.content = some s ∧ s ≠ "")) :=
  ⟨by decide, fallback_total_and_valid "u7" exEnv2 3 true true 0 (by decide)⟩

/-! ## Heap lemmas for the snapshot (C7) -/

theorem heapGet_some_lt (h : Heap) (a : Nat) (o : PyObj)
    (hg : heapGet h a = some o) : a < h.length := by
  by_contra hcon
  push_neg at hcon
  unfold heapGet at hg
  rw [List.get?_eq_none.mpr hcon] at hg
  cases hg

theorem heapGet_append_left (h t : Heap) (b : Nat) (hb : b < h.length) :
    heapGet (h ++ t) b = heapGet h b := by
  unfold heapGet
  exact List.get?_append hb

theorem heapGet_append_at (h t : Heap) (i : Nat) :
    heapGet (h ++ t) (h.length + i) = t.get? i := by
  unfold heapGet
  rw [List.get?_append_right (by omega)]
  congr 1
  omega

theorem setCell_preserves_low (h : Heap) (m : Nat) (o : PyObj) (b : Nat)
    (hbm : b ≠ m) : heapGet (setCell h m o) b = heapGet h b := by
  unfold setCell heapGet
  rw [List.get?_eq_getElem?, List.get?_eq_getElem?]
  rw [List.getElem?_set_ne (by omega)]

theorem dictFieldsAt_agree (h h2 : Heap) (a : Nat)
    (fs : List (String × PyVal)) (hr : dictFieldsAt h a = some fs)
    (hag : ∀ b, b < h.length → heapGet h2 b = heapGet h b) :
    dictFieldsAt h2 a = some fs := by
  unfold dictFieldsAt at hr ⊢
  cases hg : heapGet h a with
  | none => rw [hg] at hr; cases hr
  | some o =>
    rw [hg] at hr
    rw [hag a (heapGet_some_lt h a o hg), hg]
    exact hr

theorem listItemsAt_agree (h h2 : Heap) (a : Nat) (items : List PyVal)
    (hr : listItemsAt h a = some items)
    (hag : ∀ b, b < h.length → heapGet h2 b = heapGet h b) :
    listItemsAt h2 a = some items := by
  unfold listItemsAt at hr ⊢
  cases hg : heapGet h a with
  | none => rw [hg] at hr; cases hr
  | some o =>
    rw [hg] at hr
    rw [hag a (heapGet_some_lt h a o hg), hg]
    exact hr

theorem readPost_agree (h h2 : Heap) (a : Nat) (p : PostRead)
    (hr : readPost h a = some p)
    (hag : ∀ b, b < h.length → heapGet h2 b = heapGet h b) :
    readPost h2 a = some p := by
  unfold readPost at hr ⊢
  cases hg : heapGet h a with
  | none => rw [hg] at hr; cases hr
  | some o =>
    rw [hg] at hr
    rw [hag a (heapGet_some_lt h a o hg), hg]
    exact hr

theorem readCommentVal_agree (h h2 : Heap) (v : PyVal) (c : CommentRead)
    (hr : readCommentVal h v = some c)
    (hag : ∀ b, b < h.length → heapGet h2 b = heapGet h b) :
    readCommentVal h2 v = some c := by
  cases v with
  | vref a =>
    unfold readCommentVal at hr ⊢
    dsimp only at hr ⊢
    cases hg : heapGet h a with
    | none => rw [hg] at hr; cases hr
    | some o =>
      rw [hg] at hr
      rw [hag a (heapGet_some_lt h a o hg), hg]
      exact hr
  | vstr s => cases hr
  | vint n => cases hr
  | vnone => cases hr

theorem readComments_agree (h h2 : Heap) (vs : List PyVal)
    (hag : ∀ b, b < h.length → heapGet h2 b = heapGet h b) :
    ∀ cs, readComments h vs = some cs → readComments h2 vs = some cs := by
  induction vs with
  | nil => intro cs hr; exact hr
  | cons v vs ih =>
    intro cs hr
    unfold readComments at hr ⊢
    cases hcv : readCommentVal h v with
    | none => rw [hcv] at hr; cases hr
    | some c =>
      rw [hcv] at hr
      cases hcs : readComments h vs with
      | none => rw [hcs] at hr; cases hr
      | some cs' =>
        rw [hcs] at hr
        rw [readCommentVal_agree h h2 v c hcv hag, ih cs' hcs]
        exact hr

theorem readEnvData_agree (h h2 : Heap) (a : Nat) (d : EnvRead)
    (hr : readEnvData h a = some d)
    (hag : ∀ b, b < h.length → heapGet h2 b = heapGet h b) :
    readEnvData h2 a = some d := by
  unfold readEnvData at hr ⊢
  cases h1 : dictFieldsAt h a with
  | none => rw [h1] at hr; cases hr
  | some fs =>
    rw [h1] at hr
    rw [dictFieldsAt_agree h h2 a fs h1 hag]
    simp only [Option.some_bind] at hr ⊢
    cases h2a : asRef (dictGet fs "post") with
    | none => rw [h2a] at hr; cases hr
    | some pa =>
      rw [h2a] at hr
      simp only [Option.some_bind] at hr ⊢
      cases h3 : asRef (dictGet fs "comments") with
      | none => rw [h3] at hr; cases hr
      | some ca =>
        rw [h3] at hr
        simp only [Option.some_bind] at hr ⊢
        cases h4 : asRef (dictGet fs "actions") with
        | none => rw [h4] at hr; cases hr
        | some aa =>
          rw [h4] at hr
          simp only [Option.some_bind] at hr ⊢
          cases h5 : asInt (dictGet fs "current_round") with
          | none => rw [h5] at hr; cases hr
          | some round =>
            rw [h5] at hr
            simp only [Option.some_bind] at hr ⊢
            cases h6 : asRef (dictGet fs "user_action_count") with
            | none => rw [h6] at hr; cases hr
            | some ua =>
              rw [h6] at hr
              simp only [Option.some_bind] at hr ⊢
              cases h7 : readPost h pa with
              | none => rw [h7] at hr; cases hr
              | some post =>
                rw [h7] at hr
                rw [readPost_agree h h2 pa post h7 hag]
                simp only [Option.some_bind] at hr ⊢
                cases h8 : dictFieldsAt h ca with
                | none => rw [h8] at hr; cases hr
                | some cfs =>
                  rw [h8] at hr
                  rw [dictFieldsAt_agree h h2 ca cfs h8 hag]
                  simp only [Option.some_bind] at hr ⊢
                  cases h9 : readComments h (cfs.map (fun p => p.2)) with
                  | none => rw [h9] at hr; cases hr
                  | some cs =>
                    rw [h9] at hr
                    rw [readComments_agree h h2 _ hag cs h9]
                    simp only [Option.some_bind] at hr ⊢
                    cases h10 : listItemsAt h aa with
                    | none => rw [h10] at hr; cases hr
                    | some acts =>
                      rw [h10] at hr
                      rw [listItemsAt_agree h h2 aa acts h10 hag]
                      simp only [Option.some_bind] at hr ⊢
                      cases h11 : dictFieldsAt h ua with
                      | none => rw [h11] at hr; cases hr
                      | some counts =>
                        rw [h11] at hr
                        rw [dictFieldsAt_agree h h2 ua counts h11 hag]
                        simp only [Option.some_bind] at hr ⊢
                        exact hr

theorem asLeaf_isLeaf {x : Option PyVal} {v : PyVal}
    (h : asLeaf x = some v) : isLeaf v = true := by
  cases x with
  | none => cases h
  | some w =>
    cases w <;> simp [asLeaf] at h <;> subst h <;> rfl

theorem readCommentVal_leaf {h : Heap} {v : PyVal} {c : CommentRead}
    (hr : readCommentVal h v = some c) : isLeaf c.content = true := by
  cases v with
  | vref a =>
    unfold readCommentVal at hr
    dsimp only at hr
    split at hr
    · split at hr
      · injection hr with hr
        subst hr
        exact asLeaf_isLeaf (by assumption)
      · cases hr
    · cases hr
  | vstr s => cases hr
  | vint n => cases hr
  | vnone => cases hr

theorem readComments_leaf {h : Heap} {vs : List PyVal}
    {cs : List CommentRead} (hr : readComments h vs = some cs) :
    ∀ c ∈ cs, isLeaf c.content = true := by
  induction vs generalizing cs with
  | nil =>
    unfold readComments at hr
    injection hr with hr
    subst hr
    intro c hc
    cases hc
  | cons v vs ih =>
    unfold readComments at hr
    cases hcv : readCommentVal h v with
    | none => rw [hcv] at hr; cases hr
    | some c0 =>
      rw [hcv] at hr
      cases hcs : readComments h vs with
      | none => rw [hcs] at hr; cases hr
      | some cs' =>
        rw [hcs] at hr
        injection hr with hr
        subst hr
        intro c hc
        rcases List.mem_cons.mp hc with rfl | hc'
        · exact readCommentVal_leaf hcv
        · exact ih hcs c hc'

theorem readEnvData_leaf {h : Heap} {a : Nat} {d : EnvRead}
    (hr : readEnvData h a = some d) :
    ∀ c ∈ d.comments, isLeaf c.content = true := by
  unfold readEnvData at hr
  cases h1 : dictFieldsAt h a with
  | none => rw [h1] at hr; cases hr
  | some fs =>
    rw [h1] at hr
    simp only [Option.some_bind] at hr
    cases h2a : asRef (dictGet fs "post") with
    | none => rw [h2a] at hr; cases hr
    | some pa =>
      rw [h2a] at hr
      simp only [Option.some_bind] at hr
      cases h3 : asRef (dictGet fs "comments") with
      | none => rw [h3] at hr; cases hr
      | some ca =>
        rw [h3] at hr
        simp only [Option.some_bind] at hr
        cases h4 : asRef (dictGet fs "actions") with
        | none => rw [h4] at hr; cases hr
        | some aa =>
          rw [h4] at hr
          simp only [Option.some_bind] at hr
          cases h5 : asInt (dictGet fs "current_round") with
          | none => rw [h5] at hr; cases hr
          | some round =>
            rw [h5] at hr
            simp only [Option.some_bind] at hr
            cases h6 : asRef (dictGet fs "user_action_count") with
            | none => rw [h6] at hr; cases hr
            | some ua =>
              rw [h6] at hr
              simp only [Option.some_bind] at hr
              cases h7 : readPost h pa with
              | none => rw [h7] at hr; cases hr
              | some post =>
                rw [h7] at hr
                simp only [Option.some_bind] at hr
                cases h8 : dictFieldsAt h ca with
                | none => rw [h8] at hr; cases hr
                | some cfs =>
                  rw [h8] at hr
                  simp only [Option.some_bind] at hr
                  cases h9 : readComments h (cfs.map (fun p => p.2)) with
                  | none => rw [h9] at hr; cases hr
                  | some cs =>
                    rw [h9] at hr
                    simp only [Option.some_bind] at hr
                    cases h10 : listItemsAt h aa with
                    | none => rw [h10] at hr; cases hr
                    | some acts =>
                      rw [h10] at hr
                      simp only [Option.some_bind] at hr
                      cases h11 : dictFieldsAt h ua with
                      | none => rw [h11] at hr; cases hr
                      | some counts =>
                        rw [h11] at hr
                        simp only [Option.some_bind] at hr
                        injection hr with hr
                        subst hr
                        exact readComments_leaf h9

theorem primariesOf_leaf {d : EnvRead}
    (hl : ∀ c ∈ d.comments, isLeaf c.content = true) :
    ∀ c ∈ primariesOf d, isLeaf c.content = true := by
  intro c hc
  unfold primariesOf at hc
  have := (mem_stableSort _ _ c).mp hc
  exact hl c (List.mem_of_mem_filter this)

theorem subsOf_leaf {d : EnvRead}
    (hl : ∀ c ∈ d.comments, isLeaf c.content = true) :
    ∀ pid, ∀ s ∈ subsOf d pid, isLeaf s.content = true := by
  intro pid s hs
  unfold subsOf at hs
  have := (mem_stableSort _ _ s).mp hs
  exact hl s (List.mem_of_mem_filter this)

theorem refsOfVal_leaf {v : PyVal} (hl : isLeaf v = true) :
    refsOfVal v = [] := by
  cases v <;> simp [refsOfVal] <;> cases hl

theorem subCell_refs {s : CommentRead} (hl : isLeaf s.content = true) :
    refsOfObj (subCell s) = [] := by
  unfold subCell refsOfObj
  simp only [List.map_cons, List.map_nil]
  rw [refsOfVal_leaf hl]
  simp [refsOfVal]

theorem commentBlock_refs (base : Nat) (c : CommentRead)
    (subs : List CommentRead) (hlc : isLeaf c.content = true)
    (hls : ∀ s ∈ subs, isLeaf s.content = true) :
    ∀ o ∈ commentBlock base c subs, ∀ m ∈ refsOfObj o, base ≤ m := by
  intro o ho m hm
  unfold commentBlock at ho
  rcases List.mem_append.mp ho with ho | ho
  · rcases List.mem_map.mp ho with ⟨s, hs, rfl⟩
    rw [subCell_refs (hls s hs)] at hm
    cases hm
  · rcases List.mem_cons.mp ho with rfl | ho
    · unfold refsOfObj at hm
      rcases List.mem_join.mp hm with ⟨l, hl0, hml⟩
      rcases List.mem_map.mp hl0 with ⟨v, hv, rfl⟩
      rcases List.mem_map.mp hv with ⟨i, _, rfl⟩
      simp only [refsOfVal, List.mem_singleton] at hml
      omega
    · rcases List.mem_cons.mp ho with rfl | ho
      · unfold commentCell refsOfObj at hm
        simp only [List.map_cons, List.map_nil] at hm
        rw [refsOfVal_leaf hlc] at hm
        simp [refsOfVal] at hm
        omega
      · cases ho

theorem commentBlocks_refs (d : EnvRead)
    (hl : ∀ pid, ∀ s ∈ subsOf d pid, isLeaf s.content = true) :
    ∀ (cs : List CommentRead) (base : Nat),
      (∀ c ∈ cs, isLeaf c.content = true) →
      (∀ o ∈ (commentBlocks d base cs).1, ∀ m ∈ refsOfObj o, base ≤ m) ∧
      (∀ ad ∈ (commentBlocks d base cs).2, base ≤ ad) := by
  intro cs
  induction cs with
  | nil =>
    intro base _
    constructor
    · intro o ho; simp [commentBlocks] at ho
    · intro ad had; simp [commentBlocks] at had
  | cons c rest ih =>
    intro base hlc
    have hEq : commentBlocks d base (c :: rest) =
        (commentBlock base c (subsOf d c.commentId) ++
           (commentBlocks d
             (base + (commentBlock base c (subsOf d c.commentId)).length)
             rest).1,
         (base + (subsOf d c.commentId).length + 1) ::
           (commentBlocks d
             (base + (commentBlock base c (subsOf d c.commentId)).length)
             rest).2) := rfl
    obtain ⟨ih1, ih2⟩ := ih
      (base + (commentBlock base c (subsOf d c.commentId)).length)
      (fun q hq => hlc q (List.mem_cons_of_mem _ hq))
    constructor
    · intro o ho m hm
      rw [hEq] at ho
      rcases List.mem_append.mp ho with ho | ho
      · exact commentBlock_refs base c (subsOf d c.commentId)
          (hlc c (List.mem_cons_self _ _)) (hl c.commentId) o ho m hm
      · have := ih1 o ho m hm
        omega
    · intro ad had
      rw [hEq] at had
      rcases List.mem_cons.mp had with rfl | had
      · omega
      · have := ih2 ad had
        omega

theorem buildSnapshot_refs (d : EnvRead)
    (hl : ∀ c ∈ d.comments, isLeaf c.content = true) (base : Nat) :
    (∀ o ∈ (buildSnapshot d base).1, ∀ m ∈ refsOfObj o, base ≤ m) ∧
    base ≤ (buildSnapshot d base).2 := by
  obtain ⟨hcells, haddrs⟩ := commentBlocks_refs d (subsOf_leaf hl)
    (primariesOf d) base (primariesOf_leaf hl)
  constructor
  · intro o ho m hm
    have hEq : (buildSnapshot d base).1 =
        (commentBlocks d base (primariesOf d)).1 ++
        [.olist ((commentBlocks d base (primariesOf d)).2.map PyVal.vref),
         postCellOf d.post,
         rootCellOf d (base + (commentBlocks d base (primariesOf d)).1.length)
           (base + (commentBlocks d base (primariesOf d)).1.length + 1)] := rfl
    rw [hEq] at ho
    rcases List.mem_append.mp ho with ho | ho
    · exact hcells o ho m hm
    · rcases List.mem_cons.mp ho with rfl | ho
      · unfold refsOfObj at hm
        rcases List.mem_join.mp hm with ⟨l, hl0, hml⟩
        rcases List.mem_map.mp hl0 with ⟨v, hv, rfl⟩
        rcases List.mem_map.mp hv with ⟨ad, had, rfl⟩
        simp only [refsOfVal, List.mem_singleton] at hml
        have := haddrs ad had
        omega
      · rcases List.mem_cons.mp ho with rfl | ho
        · unfold postCellOf refsOfObj at hm
          simp [refsOfVal] at hm
        · rcases List.mem_cons.mp ho with rfl | ho
          · unfold rootCellOf refsOfObj at hm
            simp [refsOfVal] at hm
            omega
          · cases ho
  · show base ≤ base + (commentBlocks d base (primariesOf d)).1.length + 1 + 1
    omega

/-! ## Resolving the built snapshot (C7) -/

theorem readTree_leaf (n : Nat) (h : Heap) (v : PyVal)
    (hl : isLeaf v = true) : readTree (n + 1) h v = some (.tleaf v) := by
  cases v with
  | vref a => simp [isLeaf] at hl
  | vstr s => simp [readTree]
  | vint m => simp [readTree]
  | vnone => simp [readTree]

theorem readTreeFields_leaves (n : Nat) (h : Heap)
    (fs : List (String × PyVal)) (hl : ∀ p ∈ fs, isLeaf p.2 = true) :
    readTreeFields (n + 1) h fs =
      some (fs.map (fun p => (p.1, PyTree.tleaf p.2))) := by
  induction fs with
  | nil => simp [readTreeFields]
  | cons p ps ih =>
    rw [readTreeFields]
    rw [readTree_leaf n h p.2 (hl p (List.mem_cons_self _ _))]
    rw [ih (fun q hq => hl q (List.mem_cons_of_mem _ hq))]
    rfl

theorem readTree_leafDict (n : Nat) (h : Heap) (a : Nat)
    (fs : List (String × PyVal)) (hl : ∀ p ∈ fs, isLeaf p.2 = true)
    (hH : heapGet h a = some (.odict fs)) :
    readTree (n + 2) h (.vref a) =
      some (.tdict (fs.map (fun p => (p.1, PyTree.tleaf p.2)))) := by
  rw [readTree, hH]
  dsimp only
  rw [readTreeFields_leaves n h fs hl]
  rfl

theorem readTree_subCell (n : Nat) (h : Heap) (a : Nat) (s : CommentRead)
    (hl : isLeaf s.content = true) (hH : heapGet h a = some (subCell s)) :
    readTree (n + 2) h (.vref a) = some (subTree s) := by
  have hfl : ∀ p ∈ [("comment_id", PyVal.vstr s.commentId),
      ("content", s.content), ("author_id", PyVal.vstr s.authorId),
      ("likes", PyVal.vint s.likes),
      ("created_at", PyVal.vstr (toString s.createdAt))],
      isLeaf p.2 = true := by
    intro p hp
    simp only [List.mem_cons, List.not_mem_nil, or_false] at hp
    rcases hp with rfl | rfl | rfl | rfl | rfl
    · rfl
    · exact hl
    · rfl
    · rfl
    · rfl
  exact readTree_leafDict n h a _ hfl hH

theorem readTreeList_subRefs (n : Nat) (H : Heap) :
    ∀ (subs : List CommentRead) (base : Nat),
      (∀ s ∈ subs, isLeaf s.content = true) →
      (∀ i, i < subs.length →
        heapGet H (base + i) = (subs.map subCell).get? i) →
      readTreeList (n + 2) H
        ((List.range subs.length).map (fun i => PyVal.vref (base + i))) =
        some (subs.map subTree) := by
  intro subs
  induction subs with
  | nil =>
    intro base _ _
    simp [readTreeList]
  | cons s rest ih =>
    intro base hl hH
    rw [List.length_cons, List.range_succ_eq_map, List.map_cons,
      List.map_map]
    have hhead : heapGet H (base + 0) = some (subCell s) := by
      have := hH 0 (by simp)
      simpa using this
    have h1 : readTree (n + 2) H (.vref (base + 0)) = some (subTree s) :=
      readTree_subCell n H (base + 0) s (hl s (List.mem_cons_self _ _))
        hhead
    have htail : (List.range rest.length).map
        ((fun i => PyVal.vref (base + i)) ∘ Nat.succ) =
        (List.range rest.length).map
          (fun i => PyVal.vref ((base + 1) + i)) := by
      apply List.map_congr_left
      intro i _
      simp only [Function.comp]
      congr 1
      omega
    rw [htail]
    have h2 := ih (base + 1)
      (fun q hq => hl q (List.mem_cons_of_mem _ hq))
      (fun i hi => by
        have := hH (i + 1) (by simpa using Nat.succ_lt_succ hi)
        have he : base + (i + 1) = (base + 1) + i := by omega
        rw [he] at this
        simpa using this)
    rw [readTreeList, h1, h2]
    rfl

theorem readTree_commentBlock (n : Nat) (H : Heap) (base : Nat)
    (c : CommentRead) (subs : List CommentRead)
    (hlc : isLeaf c.content = true)
    (hls : ∀ s ∈ subs, isLeaf s.content = true)
    (hH : ∀ i, i < (commentBlock base c subs).length →
      heapGet H (base + i) = (commentBlock base c subs).get? i) :
    readTree (n + 4) H (.vref (base + subs.length + 1)) =
      some (commentTree c subs) := by
  have hblen : (commentBlock base c subs).length = subs.length + 2 := by
    simp [commentBlock]
  have hcc : heapGet H (base + (subs.length + 1)) =
      some (commentCell c (base + subs.length)) := by
    have := hH (subs.length + 1) (by omega)
    rw [this]
    unfold commentBlock
    rw [List.get?_append_right (by simp)]
    simp
  have hsl : heapGet H (base + subs.length) =
      some (.olist ((List.range subs.length).map
        (fun i => PyVal.vref (base + i)))) := by
    have := hH subs.length (by omega)
    rw [this]
    unfold commentBlock
    rw [List.get?_append_right (by simp)]
    simp
  have hsub : ∀ i, i < subs.length →
      heapGet H (base + i) = (subs.map subCell).get? i := by
    intro i hi
    have := hH i (by omega)
    rw [this]
    unfold commentBlock
    rw [List.get?_append (by simpa using hi)]
  have hlist : readTreeList (n + 2) H
      ((List.range subs.length).map (fun i => PyVal.vref (base + i))) =
      some (subs.map subTree) :=
    readTreeList_subRefs n H subs base hls hsub
  have hleafS : ∀ v : PyVal, isLeaf v = true →
      readTree (n + 3) H v = some (.tleaf v) :=
    fun v hv => readTree_leaf (n + 2) H v hv
  have hsubtree : readTree (n + 3) H (.vref (base + subs.length)) =
      some (.tlist (subs.map subTree)) := by
    rw [readTree, hsl]
    dsimp only
    rw [hlist]
    rfl
  have hcc' : heapGet H (base + subs.length + 1) =
      some (commentCell c (base + subs.length)) := hcc
  rw [readTree, hcc']
  unfold commentCell
  dsimp only
  rw [readTreeFields, hleafS (PyVal.vstr c.commentId) rfl]
  rw [readTreeFields, hleafS c.content hlc]
  rw [readTreeFields, hleafS (PyVal.vstr c.authorId) rfl]
  rw [readTreeFields, hleafS (PyVal.vint c.likes) rfl]
  rw [readTreeFields, hleafS (PyVal.vstr (toString c.createdAt)) rfl]
  rw [readTreeFields, hsubtree]
  rw [readTreeFields]
  rfl

theorem readTreeList_commentBlocks (n : Nat) (H : Heap) (d : EnvRead) :
    ∀ (cs : List CommentRead) (base : Nat),
      (∀ c ∈ cs, isLeaf c.content = true) →
      (∀ pid, ∀ s ∈ subsOf d pid, isLeaf s.content = true) →
      (∀ i, i < (commentBlocks d base cs).1.length →
        heapGet H (base + i) = (commentBlocks d base cs).1.get? i) →
      readTreeList (n + 4) H ((commentBlocks d base cs).2.map PyVal.vref) =
        some (cs.map (fun c => commentTree c (subsOf d c.commentId))) := by
  intro cs
  induction cs with
  | nil =>
    intro base _ _ _
    simp [commentBlocks, readTreeList]
  | cons c rest ih =>
    intro base hlc hls hH
    have hEq1 : (commentBlocks d base (c :: rest)).1 =
        commentBlock base c (subsOf d c.commentId) ++
        (commentBlocks d
          (base + (commentBlock base c (subsOf d c.commentId)).length)
          rest).1 := rfl
    have hEq2 : (commentBlocks d base (c :: rest)).2 =
        (base + (subsOf d c.commentId).length + 1) ::
        (commentBlocks d
          (base + (commentBlock base c (subsOf d c.commentId)).length)
          rest).2 := rfl
    have hblk : ∀ i, i < (commentBlock base c (subsOf d c.commentId)).length →
        heapGet H (base + i) =
          (commentBlock base c (subsOf d c.commentId)).get? i := by
      intro i hi
      have := hH i (by rw [hEq1]; simp [List.length_append]; omega)
      rw [this, hEq1, List.get?_append hi]
    have h1 := readTree_commentBlock n H base c (subsOf d c.commentId)
      (hlc c (List.mem_cons_self _ _)) (hls c.commentId) hblk
    have hrest : ∀ i,
        i < (commentBlocks d
          (base + (commentBlock base c (subsOf d c.commentId)).length)
          rest).1.length →
        heapGet H
          ((base + (commentBlock base c (subsOf d c.commentId)).length) + i) =
          (commentBlocks d
            (base + (commentBlock base c (subsOf d c.commentId)).length)
            rest).1.get? i := by
      intro i hi
      have hlen := (commentBlock base c (subsOf d c.commentId)).length
      have := hH ((commentBlock base c (subsOf d c.commentId)).length + i)
        (by rw [hEq1]; simp [List.length_append]; omega)
      have he : base +
          ((commentBlock base c (subsOf d c.commentId)).length + i) =
          (base + (commentBlock base c (subsOf d c.commentId)).length) + i := by
        omega
      rw [he] at this
      rw [this, hEq1, List.get?_append_right (by omega)]
      congr 1
      omega
    have h2 := ih (base + (commentBlock base c (subsOf d c.commentId)).length)
      (fun q hq => hlc q (List.mem_cons_of_mem _ hq)) hls hrest
    rw [hEq2, List.map_cons, readTreeList, h1, h2]
    rfl

theorem readTree_buildSnapshot (h : Heap) (d : EnvRead)
    (hl : ∀ c ∈ d.comments, isLeaf c.content = true) :
    readTree 6 (h ++ (buildSnapshot d h.length).1)
      (.vref (buildSnapshot d h.length).2) = some (snapTreeOf d) := by
  have hEqC : (buildSnapshot d h.length).1 =
      (commentBlocks d h.length (primariesOf d)).1 ++
      [.olist ((commentBlocks d h.length (primariesOf d)).2.map PyVal.vref),
       postCellOf d.post,
       rootCellOf d
         (h.length + (commentBlocks d h.length (primariesOf d)).1.length)
         (h.length + (commentBlocks d h.length (primariesOf d)).1.length +
           1)] := rfl
  have hEqR : (buildSnapshot d h.length).2 =
      h.length + (commentBlocks d h.length (primariesOf d)).1.length + 2 :=
    rfl
  have hat : ∀ i, heapGet (h ++ (buildSnapshot d h.length).1)
      (h.length + i) = (buildSnapshot d h.length).1.get? i :=
    fun i => heapGet_append_at h _ i
  have hcb : ∀ i, i < (commentBlocks d h.length (primariesOf d)).1.length →
      heapGet (h ++ (buildSnapshot d h.length).1) (h.length + i) =
        (commentBlocks d h.length (primariesOf d)).1.get? i := by
    intro i hi
    rw [hat i, hEqC, List.get?_append hi]
  have hprim : heapGet (h ++ (buildSnapshot d h.length).1)
      (h.length + (commentBlocks d h.length (primariesOf d)).1.length) =
      some (.olist ((commentBlocks d h.length (primariesOf d)).2.map
        PyVal.vref)) := by
    rw [hat _, hEqC, List.get?_append_right (by omega)]
    simp
  have hpost : heapGet (h ++ (buildSnapshot d h.length).1)
      (h.length + (commentBlocks d h.length (primariesOf d)).1.length + 1) =
      some (postCellOf d.post) := by
    have he : h.length +
        (commentBlocks d h.length (primariesOf d)).1.length + 1 =
        h.length +
        ((commentBlocks d h.length (primariesOf d)).1.length + 1) := by omega
    rw [he, hat _, hEqC, List.get?_append_right (by omega)]
    have he2 : (commentBlocks d h.length (primariesOf d)).1.length + 1 -
        (commentBlocks d h.length (primariesOf d)).1.length = 1 := by omega
    rw [he2]
    rfl
  have hroot : heapGet (h ++ (buildSnapshot d h.length).1)
      (h.length + (commentBlocks d h.length (primariesOf d)).1.length + 2) =
      some (rootCellOf d
        (h.length + (commentBlocks d h.length (primariesOf d)).1.length)
        (h.length + (commentBlocks d h.length (primariesOf d)).1.length +
          1)) := by
    have he : h.length +
        (commentBlocks d h.length (primariesOf d)).1.length + 2 =
        h.length +
        ((commentBlocks d h.length (primariesOf d)).1.length + 2) := by omega
    rw [he, hat _, hEqC, List.get?_append_right (by omega)]
    have he2 : (commentBlocks d h.length (primariesOf d)).1.length + 2 -
        (commentBlocks d h.length (primariesOf d)).1.length = 2 := by omega
    rw [he2]
    rfl
  have hlist : readTreeList 4 (h ++ (buildSnapshot d h.length).1)
      ((commentBlocks d h.length (primariesOf d)).2.map PyVal.vref) =
      some ((primariesOf d).map
        (fun c => commentTree c (subsOf d c.commentId))) :=
    readTreeList_commentBlocks 0 (h ++ (buildSnapshot d h.length).1)
      d (primariesOf d) h.length (primariesOf_leaf hl) (subsOf_leaf hl) hcb
  have hprimtree : readTree 5 (h ++ (buildSnapshot d h.length).1)
      (.vref (h.length + (commentBlocks d h.length (primariesOf d)).1.length)) =
      some (.tlist ((primariesOf d).map
        (fun c => commentTree c (subsOf d c.commentId)))) := by
    rw [readTree, hprim]
    dsimp only
    rw [hlist]
    rfl
  have hposttree : readTree 5 (h ++ (buildSnapshot d h.length).1)
      (.vref (h.length +
        (commentBlocks d h.length (primariesOf d)).1.length + 1)) =
      some (postTree d.post) := by
    have := readTree_leafDict 3 (h ++ (buildSnapshot d h.length).1)
      (h.length + (commentBlocks d h.length (primariesOf d)).1.length + 1)
      [("post_id", PyVal.vstr d.post.postId),
       ("content", PyVal.vstr d.post.content),
       ("author_id", PyVal.vstr d.post.authorId),
       ("likes", PyVal.vint d.post.likes),
       ("created_at", PyVal.vstr (toString d.post.createdAt))]
      (by
        intro p hp
        simp only [List.mem_cons, List.not_mem_nil, or_false] at hp
        rcases hp with rfl | rfl | rfl | rfl | rfl <;> rfl)
      hpost
    exact this
  have hleaf5 : ∀ v : PyVal, isLeaf v = true →
      readTree 5 (h ++ (buildSnapshot d h.length).1) v =
        some (.tleaf v) :=
    fun v hv => readTree_leaf 4 _ v hv
  rw [hEqR, readTree, hroot]
  unfold rootCellOf
  dsimp only
  rw [readTreeFields, hposttree]
  rw [readTreeFields, hprimtree]
  rw [readTreeFields, hleaf5 (PyVal.vint (d.comments.length : Int)) rfl]
  rw [readTreeFields, hleaf5 (PyVal.vint (d.totalActions : Int)) rfl]
  rw [readTreeFields, hleaf5 (PyVal.vint d.currentRound) rfl]
  rw [readTreeFields, hleaf5 (PyVal.vint (d.activeUsers : Int)) rfl]
  rw [readTreeFields]
  rfl

/-- C7: snapshot purity and independence.  Whenever the snapshot call
succeeds on an environment heap, (1) it only appends freshly allocated
cells — every pre-existing cell, in particular the whole environment
object graph, is untouched and the fresh cells reference only fresh
cells; (2) the returned root is itself a fresh cell, so everything
reachable from the snapshot is fresh; (3) mutating *any* fresh cell (and
hence any part of the returned snapshot) leaves every engine cell exactly
as it was; and (4) running the snapshot again on any heap that agrees on
the engine cells — in particular the unmodified post-call heap
(consecutive calls) or the heap after arbitrary mutations of snapshot
cells — succeeds and returns a structurally equal snapshot. -/
theorem snapshot_purity (h : Heap) (a : Nat) (r : PyVal) (h' : Heap)
    (hcall : getEnvironmentStateH h a = some (r, h')) :
    (∃ fresh, h' = h ++ fresh ∧
      (∀ b, b < h.length → heapGet h' b = heapGet h b) ∧
      (∀ o ∈ fresh, ∀ m ∈ refsOfObj o, h.length ≤ m)) ∧
    (∃ ra, r = PyVal.vref ra ∧ h.length ≤ ra) ∧
    (∀ m o2, h.length ≤ m → ∀ b, b < h.length →
      heapGet (setCell h' m o2) b = heapGet h b) ∧
    (∀ h2, (∀ b, b < h.length → heapGet h2 b = heapGet h b) →
      ∃ r2 h2', getEnvironmentStateH h2 a = some (r2, h2') ∧
        readTree 6 h2' r2 = readTree 6 h' r ∧
        (readTree 6 h' r).isSome = true) := by
  unfold getEnvironmentStateH at hcall
  cases hd : readEnvData h a with
  | none => rw [hd] at hcall; cases hcall
  | some d =>
    rw [hd] at hcall
    dsimp only at hcall
    injection hcall with hpair
    obtain ⟨hr, hh⟩ := Prod.mk.injEq _ _ _ _ ▸ hpair
    subst hr
    subst hh
    have hleaves := readEnvData_leaf hd
    obtain ⟨hrefs, hroot⟩ := buildSnapshot_refs d hleaves h.length
    refine ⟨⟨(buildSnapshot d h.length).1, rfl, ?_, hrefs⟩,
      ⟨(buildSnapshot d h.length).2, rfl, hroot⟩, ?_, ?_⟩
    · intro b hb
      exact heapGet_append_left h _ b hb
    · intro m o2 hm b hb
      rw [setCell_preserves_low _ m o2 b (by omega)]
      exact heapGet_append_left h _ b hb
    · intro h2 hag
      have hd2 : readEnvData h2 a = some d := readEnvData_agree h h2 a d hd hag
      refine ⟨.vref (buildSnapshot d h2.length).2,
        h2 ++ (buildSnapshot d h2.length).1, ?_, ?_, ?_⟩
      · unfold getEnvironmentStateH
        rw [hd2]
      · rw [readTree_buildSnapshot h2 d hleaves,
          readTree_buildSnapshot h d hleaves]
      · rw [readTree_buildSnapshot h d hleaves]
        rfl

/-- C7 witness: the snapshot call on the concrete ten-cell environment
heap `exHeap`. -/
theorem snapshot_purity_witness :
    getEnvironmentStateH exHeap 0 = some (exSnapPair.1, exSnapPair.2) ∧
    ((∃ fresh, exSnapPair.2 = exHeap ++ fresh ∧
        (∀ b, b < exHeap.length →
          heapGet exSnapPair.2 b = heapGet exHeap b) ∧
        (∀ o ∈ fresh, ∀ m ∈ refsOfObj o, exHeap.length ≤ m)) ∧
      (∃ ra, exSnapPair.1 = PyVal.vref ra ∧ exHeap.length ≤ ra) ∧
      (∀ m o2, exHeap.length ≤ m → ∀ b, b < exHeap.length →
        heapGet (setCell exSnapPair.2 m o2) b = heapGet exHeap b) ∧
      (∀ h2, (∀ b, b < exHeap.length → heapGet h2 b = heapGet exHeap b) →
        ∃ r2 h2', getEnvironmentStateH h2 0 = some (r2, h2') ∧
          readTree 6 h2' r2 = readTree 6 exSnapPair.2 exSnapPair.1 ∧
          (readTree 6 exSnapPair.2 exSnapPair.1).isSome = true)) :=
  ⟨by rfl, snapshot_purity exHeap 0 exSnapPair.1 exSnapPair.2 (by rfl)⟩

end SimulateEnv
